import Mathlib

/-!
# Dutch Blitz game engine: shallow embedding

A shallow embedding of `src/dutchBlitzGame.js`.  JS arrays used as stacks
(`push`/`pop` at the end) are modelled as Lean lists with the *head* as the
top of the pile; the `drawRevealed` buffer, which JS indexes from the front,
is kept in JS index order.  JS `Math.random()` is modelled by explicit
oracles threaded through the functions; JS numbers by `ℚ` (priorities,
statistics) and `ℕ`/`ℤ` where the code only ever holds integers.
-/

namespace DutchBlitz

inductive Color where
  | red | blue | green | yellow
deriving DecidableEq, Repr

/-- `Card` from `dutchBlitzGame.js`: `value` 1-10 and a `color`. -/
structure Card where
  value : Nat
  color : Color
deriving DecidableEq, Repr

/-- `Card.canPlayOn`: an empty Dutch (foundation) pile accepts exactly value 1;
otherwise same color and value exactly one higher than the top. -/
def Card.canPlayOn (c : Card) (targetCard : Option Card) : Bool :=
  match targetCard with
  | none => c.value == 1
  | some t => c.color == t.color && c.value == t.value + 1

/-- `Card.canPostOn`: an empty post pile accepts any card; otherwise the value
must be exactly one lower than the top (JS `this.value === targetCard.value - 1`
over integers, i.e. `c.value + 1 = t.value`). -/
def Card.canPostOn (c : Card) (targetCard : Option Card) : Bool :=
  match targetCard with
  | none => true
  | some t => c.value + 1 == t.value

/-- The four shared Dutch (foundation) piles, keyed by color.  Head = top. -/
structure DutchPiles where
  red : List Card
  blue : List Card
  green : List Card
  yellow : List Card
deriving DecidableEq, Repr

def DutchPiles.get (d : DutchPiles) : Color → List Card
  | .red => d.red
  | .blue => d.blue
  | .green => d.green
  | .yellow => d.yellow

def DutchPiles.set (d : DutchPiles) (c : Color) (l : List Card) : DutchPiles :=
  match c with
  | .red => { d with red := l }
  | .blue => { d with blue := l }
  | .green => { d with green := l }
  | .yellow => { d with yellow := l }

def emptyDutch : DutchPiles := ⟨[], [], [], []⟩

/-- `SimpleBot.strategy`, assigned randomly at construction. -/
inductive Strategy where
  | aggressive | balanced
deriving DecidableEq, Repr

/-- `Player` (merged with its only concrete subclass `SimpleBot`).
All piles are head-as-top except `drawRevealed` (JS index order). -/
structure Player where
  blitzPile : List Card
  postPiles : List (List Card)
  drawPile : List Card
  drawRevealed : List Card
  playsThisRound : Nat
  totalPlays : Nat
  wins : Nat
  strategy : Strategy
deriving DecidableEq, Repr

/-- A source descriptor, as built by `getAvailableCards`. -/
inductive Source where
  | blitz
  | post (pileIndex : Nat)
  | draw (drawIndex : Nat)
deriving DecidableEq, Repr

def Player.getTopBlitzCard (p : Player) : Option Card :=
  p.blitzPile.head?

/-- `Player.getAvailableCards`: top of blitz, the top of each post pile,
and every revealed draw card, in the JS enumeration order. -/
def Player.getAvailableCards (p : Player) : List (Card × Source) :=
  (match p.getTopBlitzCard with
   | some c => [(c, Source.blitz)]
   | none => []) ++
  (p.postPiles.enum.filterMap fun iPile =>
    iPile.2.head?.map fun c => (c, Source.post iPile.1)) ++
  (p.drawRevealed.enum.map fun ic => (ic.2, Source.draw ic.1))

/-- `Player.drawCards`: reveal up to three cards from the draw pile, cycling
the current revealed cards back to the bottom of the draw pile first.
Returns the updated player and the JS boolean result. -/
def Player.drawCards (p : Player) : Player × Bool :=
  if p.drawPile = [] ∧ p.drawRevealed = [] then (p, false)
  else if p.drawRevealed = [] ∧ p.drawPile ≠ [] then
    ({ p with drawRevealed := p.drawPile.take 3, drawPile := p.drawPile.drop 3 }, true)
  else if p.drawPile ≠ [] then
    let dp := p.drawPile ++ p.drawRevealed
    ({ p with drawRevealed := dp.take 3, drawPile := dp.drop 3 }, true)
  else (p, false)

/-- `Player.removeCardFromSource`: pop the source pile (JS ignores which card
was passed; `splice(drawIndex, 1)` for the revealed buffer). -/
def Player.removeCardFromSource (p : Player) (source : Source) : Player :=
  match source with
  | .blitz => { p with blitzPile := p.blitzPile.tail }
  | .post i => { p with postPiles := p.postPiles.set i (p.postPiles.getD i []).tail }
  | .draw i => { p with drawRevealed := p.drawRevealed.eraseIdx i }

/-- The `this.playsThisRound++; this.totalPlays++;` pair of `playCard`. -/
def Player.bumpPlays (p : Player) : Player :=
  { p with playsThisRound := p.playsThisRound + 1, totalPlays := p.totalPlays + 1 }

/-- `Player.playCard`: validate against the destination top, then push to the
destination, pop the source and bump both play counters.  Returns the updated
player, the updated shared Dutch piles and the JS boolean result. -/
def Player.playCard (p : Player) (card : Card) (source : Source)
    (dutchPiles : DutchPiles) (targetPostPile : Option Nat) :
    Player × DutchPiles × Bool :=
  match targetPostPile with
  | some i =>
    if card.canPostOn (p.postPiles.getD i []).head? then
      (({ p with postPiles :=
            p.postPiles.set i (card :: p.postPiles.getD i []) }.removeCardFromSource
          source).bumpPlays,
        dutchPiles, true)
    else (p, dutchPiles, false)
  | none =>
    if card.canPlayOn ((dutchPiles.get card.color).head?) then
      ((p.removeCardFromSource source).bumpPlays,
        dutchPiles.set card.color (card :: dutchPiles.get card.color), true)
    else (p, dutchPiles, false)

def Player.hasWon (p : Player) : Bool :=
  p.blitzPile.isEmpty

/-! ## SimpleBot -/

/-- A move's destination: the Dutch pile of the card's color, or a post pile. -/
inductive MTarget where
  | dutch
  | post (pileIndex : Nat)
deriving DecidableEq, Repr

def MTarget.isDutch : MTarget → Bool
  | .dutch => true
  | .post _ => false

/-- One candidate move collected by `SimpleBot.makeMove`. -/
structure Move where
  card : Card
  source : Source
  target : MTarget
  priority : ℚ
deriving Repr

def Source.isBlitz : Source → Bool
  | .blitz => true
  | _ => false

/-- `SimpleBot.getMovePriority`.  `r` stands for the `Math.random() * 20`
drawn by the balanced strategy (so `0 ≤ r < 20` for a real random source). -/
def getMovePriority (strategy : Strategy) (card : Card) (source : Source)
    (target : MTarget) (r : ℚ) : ℚ :=
  let p0 : ℚ := 0
  let p1 := if target.isDutch ∧ card.value = 1 then p0 + 200 else p0
  let p2 := if source.isBlitz then p1 + 100 else p1
  let p3 := if target.isDutch then p2 + 50 else p2
  let p4 := p3 + (11 - (card.value : ℚ)) * 5
  match strategy with
  | .aggressive =>
    (if source.isBlitz then p4 + 50 else p4) +
      (if target.isDutch then 30 else 0)
  | .balanced => p4 + r

/-- The random component consumed by one `getMovePriority` call: the balanced
strategy reads one value from the oracle, the aggressive one reads none. -/
def scoreMove (strategy : Strategy) (oracle : Nat → ℚ) (idx : Nat)
    (card : Card) (source : Source) (target : MTarget) : ℚ × Nat :=
  match strategy with
  | .aggressive => (getMovePriority .aggressive card source target 0, idx)
  | .balanced => (getMovePriority .balanced card source target (oracle idx), idx + 1)

/-- The post-pile clogging filter of `makeMove`: empty pile, or value below 8,
or at least a gap of two below the top (`topPostCard.value - card.value >= 2`
over integers). -/
def postFilter (card : Card) (topPostCard : Option Card) : Bool :=
  match topPostCard with
  | none => true
  | some t => card.value < 8 || card.value + 2 ≤ t.value

/-- The post-pile candidate moves of one available card, in pile order. -/
def collectPostMoves (strategy : Strategy) (oracle : Nat → ℚ) (card : Card)
    (source : Source) : List (Nat × List Card) → Nat → List Move × Nat
  | [], idx => ([], idx)
  | ip :: rest, idx =>
    if card.canPostOn ip.2.head? ∧ postFilter card ip.2.head? then
      (Move.mk card source (.post ip.1)
          (scoreMove strategy oracle idx card source (.post ip.1)).1 ::
        (collectPostMoves strategy oracle card source rest
          (scoreMove strategy oracle idx card source (.post ip.1)).2).1,
       (collectPostMoves strategy oracle card source rest
         (scoreMove strategy oracle idx card source (.post ip.1)).2).2)
    else
      collectPostMoves strategy oracle card source rest idx

/-- The Dutch-pile candidate of one available card (checked first). -/
def dutchCandidate (strategy : Strategy) (oracle : Nat → ℚ) (d : DutchPiles)
    (cs : Card × Source) (idx : Nat) : List Move × Nat :=
  if cs.1.canPlayOn ((d.get cs.1.color).head?) then
    ([Move.mk cs.1 cs.2 .dutch (scoreMove strategy oracle idx cs.1 cs.2 .dutch).1],
     (scoreMove strategy oracle idx cs.1 cs.2 .dutch).2)
  else ([], idx)

/-- The candidate-collection loop of `SimpleBot.makeMove`: for each available
card, first its Dutch-pile move (if legal), then its post-pile moves. -/
def collectMoves (strategy : Strategy) (oracle : Nat → ℚ) (dutchPiles : DutchPiles)
    (postPiles : List (List Card)) : List (Card × Source) → Nat → List Move × Nat
  | [], idx => ([], idx)
  | cs :: rest, idx =>
    ((dutchCandidate strategy oracle dutchPiles cs idx).1 ++
       (collectPostMoves strategy oracle cs.1 cs.2 postPiles.enum
         (dutchCandidate strategy oracle dutchPiles cs idx).2).1 ++
       (collectMoves strategy oracle dutchPiles postPiles rest
         (collectPostMoves strategy oracle cs.1 cs.2 postPiles.enum
           (dutchCandidate strategy oracle dutchPiles cs idx).2).2).1,
     (collectMoves strategy oracle dutchPiles postPiles rest
       (collectPostMoves strategy oracle cs.1 cs.2 postPiles.enum
         (dutchCandidate strategy oracle dutchPiles cs idx).2).2).2)

/-- `moves.sort((a, b) => b.priority - a.priority)` followed by `moves[0]`:
a stable descending sort puts the first maximum-priority move first, which is
what this fold selects. -/
def pickBest : List Move → Option Move
  | [] => none
  | m :: ms => some (ms.foldl (fun best x => if best.priority < x.priority then x else best) m)

/-- `SimpleBot.makeMove`.  Returns the updated player, the updated Dutch piles,
the next oracle index and the JS boolean result. -/
def makeMove (p : Player) (dutchPiles : DutchPiles) (oracle : Nat → ℚ)
    (idx : Nat) : Player × DutchPiles × Nat × Bool :=
  let p := if p.drawRevealed = [] ∧ p.drawPile ≠ [] then (p.drawCards).1 else p
  let available := p.getAvailableCards
  let (moves, idx1) := collectMoves p.strategy oracle dutchPiles p.postPiles available idx
  match pickBest moves with
  | none =>
    let (p1, drew) := p.drawCards
    (p1, dutchPiles, idx1, drew)
  | some bestMove =>
    match bestMove.target with
    | .dutch =>
      let (p1, d1, ok) := p.playCard bestMove.card bestMove.source dutchPiles none
      (p1, d1, idx1, ok)
    | .post i =>
      let (p1, d1, ok) := p.playCard bestMove.card bestMove.source dutchPiles (some i)
      (p1, d1, idx1, ok)

/-! ## Dealing (`Player.initializeCards`) -/

/-- The 40-card deck built at the start of `initializeCards`, in build order. -/
def mkDeck : List Card :=
  [Color.red, Color.blue, Color.green, Color.yellow].flatMap fun color =>
    (List.range 10).map fun v => Card.mk (v + 1) color

/-- One Fisher-Yates swap `[deck[i], deck[j]] = [deck[j], deck[i]]`. -/
def swapL (l : List Card) (i j : Nat) : List Card :=
  match l.get? i, l.get? j with
  | some a, some b => (l.set i b).set j a
  | _, _ => l

/-- The Fisher-Yates loop, `i` running down to 1; `rand i % (i + 1)` models
`Math.floor(Math.random() * (i + 1))`, which is always in `[0, i]`. -/
def fisherYates (rand : Nat → Nat) : List Card → Nat → List Card
  | l, 0 => l
  | l, i + 1 => fisherYates rand (swapL l (i + 1) (rand (i + 1) % (i + 2))) i

def shuffle (rand : Nat → Nat) (l : List Card) : List Card :=
  fisherYates rand l (l.length - 1)

/-- `Player.initializeCards`: shuffle a fresh deck, deal 10 to the blitz pile
and 30 to the draw pile (the deck list is in JS index order, so the head-as-top
piles are the reversed slices), clear the rest, then draw once. -/
def Player.initCards (rand : Nat → Nat) (p : Player) : Player :=
  let deck := shuffle rand mkDeck
  let p1 := { p with blitzPile := (deck.take 10).reverse,
                     drawPile := (deck.drop 10).reverse,
                     drawRevealed := [],
                     postPiles := [[], [], []],
                     playsThisRound := 0 }
  p1.drawCards.1

/-! ## DutchBlitzGame -/

/-- One entry of `gameStats.playerStats` (keyed here by player index rather
than by the bot's display name). -/
structure PlayerStat where
  wins : Nat
  totalPlays : Nat
  averagePlaysPerGame : ℤ
deriving DecidableEq, Repr

structure GameStats where
  totalGames : Nat
  averageRoundDuration : ℤ
  playerStats : List PlayerStat
deriving DecidableEq, Repr

/-- `DutchBlitzGame`.  The winner is recorded by player index; times are in
milliseconds (`roundStartTime`) and seconds (`roundDuration`). -/
structure Game where
  players : List Player
  dutchPiles : DutchPiles
  gameActive : Bool
  winner : Option Nat
  roundStartTime : Nat
  roundDuration : Nat
  roundNumber : Nat
  moveCount : Nat
  gameStats : GameStats
deriving Repr

/-- The `DutchBlitzGame` constructor with `playerCount` fresh bots; the
`strats` oracle stands for the per-bot `Math.random() < 0.5` strategy choice. -/
def mkGame (strats : Nat → Strategy) (playerCount : Nat) : Game :=
  { players := (List.range playerCount).map fun i =>
      { blitzPile := [], postPiles := [[], [], []], drawPile := [],
        drawRevealed := [], playsThisRound := 0, totalPlays := 0,
        wins := 0, strategy := strats i }
    dutchPiles := emptyDutch
    gameActive := false
    winner := none
    roundStartTime := 0
    roundDuration := 0
    roundNumber := 0
    moveCount := 0
    gameStats :=
      { totalGames := 0, averageRoundDuration := 0,
        playerStats := (List.range playerCount).map fun _ =>
          { wins := 0, totalPlays := 0, averagePlaysPerGame := 0 } } }

/-- `DutchBlitzGame.startNewRound`; `rands i` is the shuffle oracle for
player `i` and `now` the current `Date.now()`. -/
def startNewRound (g : Game) (rands : Nat → Nat → Nat) (now : Nat) : Game :=
  { g with gameActive := true
           winner := none
           roundStartTime := now
           roundDuration := 0
           roundNumber := g.roundNumber + 1
           moveCount := 0
           dutchPiles := emptyDutch
           players := g.players.enum.map fun ip => ip.2.initCards (rands ip.1) }

/-- JS `Math.round` on a non-negative quantity: round half up. -/
def jsRound (q : ℚ) : ℤ := ⌊q + 1 / 2⌋

/-- `DutchBlitzGame.updateStats`. -/
def updateStats (g : Game) : Game :=
  let n := g.gameStats.totalGames + 1
  let totalDuration : ℚ :=
    (g.gameStats.averageRoundDuration : ℚ) * ((n : ℚ) - 1) + (g.roundDuration : ℚ)
  { g with gameStats :=
      { totalGames := n
        averageRoundDuration := jsRound (totalDuration / (n : ℚ))
        playerStats := g.players.map fun p =>
          { wins := p.wins, totalPlays := p.totalPlays,
            averagePlaysPerGame := jsRound ((p.totalPlays : ℚ) / (n : ℚ)) } } }

def setAt (ps : List Player) (i : Nat) (f : Player → Player) : List Player :=
  match ps.get? i with
  | some p => ps.set i (f p)
  | none => ps

/-- `DutchBlitzGame.endRound`. -/
def endRound (g : Game) (winner : Option Nat) (now : Nat) : Game :=
  let g1 := { g with gameActive := false
                     winner := winner
                     roundDuration := (now - g.roundStartTime) / 1000 }
  let g2 := match winner with
    | some i => { g1 with players := setAt g1.players i fun p => { p with wins := p.wins + 1 } }
    | none => g1
  updateStats g2

/-- Result of the per-player inner loop of `playTurn`: either the winning exit
(`endRound` + `return true`), or fall-through to the next player carrying the
updated shared state, `anyPlayerMoved` flag and `staleMateCounter`. -/
inductive InnerOut where
  | win (p : Player) (dutch : DutchPiles) (idx moveCount : Nat)
  | cont (p : Player) (dutch : DutchPiles) (idx moveCount : Nat)
      (anyMoved : Bool) (stale : Nat)
deriving Repr

/-- Handling of a successful post-draw bot move inside the retry loop of
`playTurn`: count it, end the round on a win, otherwise leave the player's
turn (`break` out of both loops). -/
def afterMove (mm : Player × DutchPiles × Nat × Bool) (moveCount stale : Nat) :
    InnerOut :=
  if mm.1.hasWon then .win mm.1 mm.2.1 mm.2.2.1 (moveCount + 1)
  else .cont mm.1 mm.2.1 mm.2.2.1 (moveCount + 1) true stale

/-- The second iteration of the `drawAttempts` retry loop. -/
def drawRetrySecond (oracle : Nat → ℚ) (p2 : Player) (d2 : DutchPiles)
    (idx2 moveCount : Nat) (anyMoved : Bool) (stale : Nat) : InnerOut :=
  if (p2.drawCards).2 = false then
    .cont (p2.drawCards).1 d2 idx2 moveCount anyMoved (stale + 1)
  else if (makeMove (p2.drawCards).1 d2 oracle idx2).2.2.2 then
    afterMove (makeMove (p2.drawCards).1 d2 oracle idx2) moveCount stale
  else
    .cont (makeMove (p2.drawCards).1 d2 oracle idx2).1
      (makeMove (p2.drawCards).1 d2 oracle idx2).2.1
      (makeMove (p2.drawCards).1 d2 oracle idx2).2.2.1 moveCount anyMoved stale

/-- The `for (drawAttempts = 0; drawAttempts < 2; ...)` retry loop of
`playTurn`, entered when a bot invocation returned false.  Whatever happens,
the surrounding `while` is then left (`break`). -/
def drawRetry (oracle : Nat → ℚ) (p : Player) (dutch : DutchPiles)
    (idx moveCount : Nat) (anyMoved : Bool) (stale : Nat) : InnerOut :=
  if (p.drawCards).2 = false then
    .cont (p.drawCards).1 dutch idx moveCount anyMoved (stale + 1)
  else if (makeMove (p.drawCards).1 dutch oracle idx).2.2.2 then
    afterMove (makeMove (p.drawCards).1 dutch oracle idx) moveCount stale
  else
    drawRetrySecond oracle (makeMove (p.drawCards).1 dutch oracle idx).1
      (makeMove (p.drawCards).1 dutch oracle idx).2.1
      (makeMove (p.drawCards).1 dutch oracle idx).2.2.1 moveCount anyMoved stale

/-- The `while (movesMade < 3 && attempts < maxAttempts && this.gameActive)`
loop of `playTurn` for one player; `fuel = maxAttempts - attempts` (attempts
is bumped exactly once per iteration, and `gameActive` cannot change inside
the loop other than through the immediate winning return). -/
def innerLoop (oracle : Nat → ℚ) : Nat → Nat → Player → DutchPiles →
    Nat → Nat → Bool → Nat → InnerOut
  | 0, _, p, dutch, idx, moveCount, anyMoved, stale =>
    .cont p dutch idx moveCount anyMoved stale
  | fuel + 1, movesMade, p, dutch, idx, moveCount, anyMoved, stale =>
    if movesMade < 3 then
      if (makeMove p dutch oracle idx).2.2.2 then
        if (makeMove p dutch oracle idx).1.hasWon then
          .win (makeMove p dutch oracle idx).1 (makeMove p dutch oracle idx).2.1
            (makeMove p dutch oracle idx).2.2.1 (moveCount + 1)
        else
          innerLoop oracle fuel (movesMade + 1) (makeMove p dutch oracle idx).1
            (makeMove p dutch oracle idx).2.1 (makeMove p dutch oracle idx).2.2.1
            (moveCount + 1) true stale
      else
        drawRetry oracle (makeMove p dutch oracle idx).1
          (makeMove p dutch oracle idx).2.1 (makeMove p dutch oracle idx).2.2.1
          moveCount anyMoved stale
    else .cont p dutch idx moveCount anyMoved stale

/-- The mutable context of `playTurn`'s player loop after processing some
players: the updated players so far, the shared Dutch piles, the oracle
cursor, `this.moveCount`, `anyPlayerMoved`, `staleMateCounter`, and the
winner's index when the loop ended the round. -/
structure LoopOut where
  players : List Player
  dutch : DutchPiles
  idx : Nat
  moveCount : Nat
  anyMoved : Bool
  stale : Nat
  winnerIdx : Option Nat
deriving Repr

/-- The `for (let player of this.players)` loop of `playTurn`, with `done` the
already-processed prefix.  `winnerIdx` is `some i` when player `i` triggered
the winning exit, in which case the remaining players are not processed. -/
def playersLoop (oracle : Nat → ℚ) (done : List Player) :
    List Player → DutchPiles → Nat → Nat → Bool → Nat → LoopOut
  | [], dutch, idx, moveCount, anyMoved, stale =>
    ⟨done, dutch, idx, moveCount, anyMoved, stale, none⟩
  | p :: rest, dutch, idx, moveCount, anyMoved, stale =>
    if p.hasWon then
      playersLoop oracle (done ++ [p]) rest dutch idx moveCount anyMoved stale
    else
      match innerLoop oracle 5 0 p dutch idx moveCount anyMoved stale with
      | .win p1 d1 idx1 mc1 =>
        ⟨done ++ p1 :: rest, d1, idx1, mc1, true, stale, some done.length⟩
      | .cont p1 d1 idx1 mc1 am1 st1 =>
        playersLoop oracle (done ++ [p1]) rest d1 idx1 mc1 am1 st1

/-- The tail of `playTurn` after the player loop: win exit, stalemate check
(which needs zero `anyPlayerMoved` and a stalemate vote from every player),
or the plain `return anyPlayerMoved`. -/
def playTurnCore (g : Game) (L : LoopOut) (now : Nat) : Game × Bool :=
  match L.winnerIdx with
  | some w =>
    (endRound
      { g with
        players := L.players
        dutchPiles := L.dutch
        moveCount := L.moveCount } (some w) now, true)
  | none =>
    if L.anyMoved = false ∧ g.players.length ≤ L.stale then
      (endRound
        { g with
          players := L.players
          dutchPiles := L.dutch
          moveCount := L.moveCount
          roundDuration := (now - g.roundStartTime) / 1000 } none now, true)
    else
      ({ g with
         players := L.players
         dutchPiles := L.dutch
         moveCount := L.moveCount
         roundDuration := (now - g.roundStartTime) / 1000 }, L.anyMoved)

/-- `DutchBlitzGame.playTurn`.  `oracle`/`idx` model the `Math.random` stream
consumed by balanced bots, `now` the `Date.now()` reads. -/
def playTurn (g : Game) (oracle : Nat → ℚ) (idx : Nat) (now : Nat) : Game × Bool :=
  if g.gameActive then
    playTurnCore g (playersLoop oracle [] g.players g.dutchPiles idx g.moveCount false 0) now
  else (g, false)

/-! ## Card conservation -/

/-- All cards held by one hand: blitz, draw, revealed, and the post piles. -/
def cardsOf (p : Player) : Multiset Card :=
  ↑p.blitzPile + ↑p.drawPile + ↑p.drawRevealed + ↑p.postPiles.flatten

/-- All cards on the shared Dutch piles. -/
def dutchCards (d : DutchPiles) : Multiset Card :=
  ↑d.red + ↑d.blue + ↑d.green + ↑d.yellow

lemma coeM_append (l₁ l₂ : List Card) :
    ((l₁ ++ l₂ : List Card) : Multiset Card) = ↑l₁ + ↑l₂ :=
  (Multiset.coe_add l₁ l₂).symm

lemma coeM_take_drop (l : List Card) (n : Nat) :
    ((l.take n : List Card) : Multiset Card) + ↑(l.drop n) = ↑l := by
  rw [← coeM_append, List.take_append_drop]

lemma multiset_set (l : List Card) (i : Nat) (a b : Card) (h : l.get? i = some b) :
    ((l.set i a : List Card) : Multiset Card) + {b} = ↑l + {a} := by
  induction l generalizing i with
  | nil => simp at h
  | cons x t ih =>
    cases i with
    | zero =>
      simp only [List.get?] at h
      cases h
      simp only [List.set, ← Multiset.cons_coe, ← Multiset.singleton_add]
      abel
    | succ j =>
      simp only [List.get?] at h
      have h5 := ih j h
      simp only [List.set, ← Multiset.cons_coe, ← Multiset.singleton_add]
      rw [add_assoc, h5, ← add_assoc]

lemma multiset_eraseIdx (l : List Card) (i : Nat) (c : Card) (h : l.get? i = some c) :
    ((l.eraseIdx i : List Card) : Multiset Card) + {c} = ↑l := by
  induction l generalizing i with
  | nil => simp at h
  | cons x t ih =>
    cases i with
    | zero =>
      simp only [List.get?] at h
      cases h
      simp only [List.eraseIdx, ← Multiset.cons_coe, ← Multiset.singleton_add]
      abel
    | succ j =>
      simp only [List.get?] at h
      have h5 := ih j h
      simp only [List.eraseIdx, ← Multiset.cons_coe, ← Multiset.singleton_add]
      rw [add_assoc, h5]

lemma multiset_flatten_set (ls : List (List Card)) (i : Nat) (x pile : List Card)
    (h : ls.get? i = some pile) :
    (((ls.set i x).flatten : List Card) : Multiset Card) + ↑pile = ↑ls.flatten + ↑x := by
  induction ls generalizing i with
  | nil => simp at h
  | cons y t ih =>
    cases i with
    | zero =>
      simp only [List.get?] at h
      cases h
      simp only [List.set, List.flatten_cons, coeM_append]
      abel
    | succ j =>
      simp only [List.get?] at h
      have h5 := ih j h
      simp only [List.set, List.flatten_cons, coeM_append]
      rw [add_assoc, h5, ← add_assoc]

/-- `drawCards` only moves cards between the draw pile and the revealed
buffer: the hand's card multiset is untouched. -/
lemma drawCards_cardsOf (p : Player) : cardsOf (p.drawCards).1 = cardsOf p := by
  unfold Player.drawCards
  split
  · rfl
  · split
    · rename_i h1 h2
      simp only [cardsOf, h2.1, Multiset.coe_nil]
      have h3 : (↑(p.drawPile.take 3) : Multiset Card) + ↑(p.drawPile.drop 3) =
          ↑p.drawPile := coeM_take_drop p.drawPile 3
      calc (↑p.blitzPile + ↑(p.drawPile.drop 3) + ↑(p.drawPile.take 3) +
              ↑p.postPiles.flatten : Multiset Card)
          = ↑p.blitzPile + (↑(p.drawPile.take 3) + ↑(p.drawPile.drop 3)) +
              ↑p.postPiles.flatten := by abel
        _ = ↑p.blitzPile + ↑p.drawPile + ↑p.postPiles.flatten := by rw [h3]
        _ = ↑p.blitzPile + ↑p.drawPile + 0 + ↑p.postPiles.flatten := by abel
    · split
      · dsimp only [cardsOf]
        have h3 : (↑((p.drawPile ++ p.drawRevealed).take 3) : Multiset Card) +
            ↑((p.drawPile ++ p.drawRevealed).drop 3) =
            ↑p.drawPile + ↑p.drawRevealed := by
          rw [coeM_take_drop, coeM_append]
        calc (↑p.blitzPile + ↑((p.drawPile ++ p.drawRevealed).drop 3) +
                ↑((p.drawPile ++ p.drawRevealed).take 3) +
                ↑p.postPiles.flatten : Multiset Card)
            = ↑p.blitzPile + (↑((p.drawPile ++ p.drawRevealed).take 3) +
                ↑((p.drawPile ++ p.drawRevealed).drop 3)) + ↑p.postPiles.flatten := by abel
          _ = ↑p.blitzPile + (↑p.drawPile + ↑p.drawRevealed) + ↑p.postPiles.flatten := by
                rw [h3]
          _ = ↑p.blitzPile + ↑p.drawPile + ↑p.drawRevealed + ↑p.postPiles.flatten := by
                abel
      · rfl

/-! ## What `getAvailableCards` membership says about the piles -/

lemma avail_blitz {p : Player} {card : Card}
    (h : (card, Source.blitz) ∈ p.getAvailableCards) :
    p.blitzPile.head? = some card := by
  unfold Player.getAvailableCards Player.getTopBlitzCard at h
  rcases List.mem_append.1 h with h1 | h1
  · rcases List.mem_append.1 h1 with h2 | h2
    · revert h2
      cases hb : p.blitzPile.head? with
      | none => intro h2; simp at h2
      | some c =>
        intro h2
        have h3 : card = c := by
          simpa using congrArg Prod.fst (List.mem_singleton.1 h2)
        rw [h3]
    · simp only [List.mem_filterMap, Option.map_eq_some'] at h2
      obtain ⟨ip, _, c, _, hc⟩ := h2
      have h3 := congrArg Prod.snd hc
      simp at h3
  · simp only [List.mem_map] at h1
    obtain ⟨ic, _, hc⟩ := h1
    have h3 := congrArg Prod.snd hc
    simp at h3

lemma avail_post {p : Player} {card : Card} {i : Nat}
    (h : (card, Source.post i) ∈ p.getAvailableCards) :
    ∃ pile, p.postPiles.get? i = some pile ∧ pile.head? = some card := by
  unfold Player.getAvailableCards Player.getTopBlitzCard at h
  rcases List.mem_append.1 h with h1 | h1
  · rcases List.mem_append.1 h1 with h2 | h2
    · revert h2
      cases hb : p.blitzPile.head? with
      | none => intro h2; simp at h2
      | some c =>
        intro h2
        have h3 := congrArg Prod.snd (List.mem_singleton.1 h2)
        simp at h3
    · simp only [List.mem_filterMap, Option.map_eq_some'] at h2
      obtain ⟨ip, hmem, c, hhead, hc⟩ := h2
      simp only [Prod.mk.injEq, Source.post.injEq] at hc
      refine ⟨ip.2, ?_, hc.1 ▸ hhead⟩
      have h3 := List.mk_mem_enum_iff_getElem?.1
        (show (ip.1, ip.2) ∈ p.postPiles.enum from hmem)
      rw [List.get?_eq_getElem?, ← hc.2]
      exact h3
  · simp only [List.mem_map] at h1
    obtain ⟨ic, _, hc⟩ := h1
    have h3 := congrArg Prod.snd hc
    simp at h3

lemma avail_draw {p : Player} {card : Card} {i : Nat}
    (h : (card, Source.draw i) ∈ p.getAvailableCards) :
    p.drawRevealed.get? i = some card := by
  unfold Player.getAvailableCards Player.getTopBlitzCard at h
  rcases List.mem_append.1 h with h1 | h1
  · rcases List.mem_append.1 h1 with h2 | h2
    · revert h2
      cases hb : p.blitzPile.head? with
      | none => intro h2; simp at h2
      | some c =>
        intro h2
        have h3 := congrArg Prod.snd (List.mem_singleton.1 h2)
        simp at h3
    · simp only [List.mem_filterMap, Option.map_eq_some'] at h2
      obtain ⟨ip, _, c, _, hc⟩ := h2
      have h3 := congrArg Prod.snd hc
      simp at h3
  · simp only [List.mem_map] at h1
    obtain ⟨ic, hmem, hc⟩ := h1
    simp only [Prod.mk.injEq, Source.draw.injEq] at hc
    have h3 := List.mk_mem_enum_iff_getElem?.1
      (show (ic.1, ic.2) ∈ p.drawRevealed.enum from hmem)
    rw [List.get?_eq_getElem?, ← hc.2]
    exact hc.1 ▸ h3

/-- Every available card is one of the hand's cards. -/
lemma avail_mem_cardsOf {p : Player} {card : Card} {source : Source}
    (h : (card, source) ∈ p.getAvailableCards) : card ∈ cardsOf p := by
  have hmem : card ∈ p.blitzPile ∨ card ∈ p.drawRevealed ∨ card ∈ p.postPiles.flatten := by
    cases source with
    | blitz =>
      exact Or.inl (List.mem_of_mem_head? (avail_blitz h))
    | post i =>
      obtain ⟨pile, hp, hh⟩ := avail_post h
      refine Or.inr (Or.inr (List.mem_flatten.2 ⟨pile, ?_, List.mem_of_mem_head? hh⟩))
      exact List.get?_mem hp
    | draw i =>
      exact Or.inr (Or.inl (List.get?_mem (avail_draw h)))
  simp only [cardsOf, Multiset.mem_add, Multiset.mem_coe]
  tauto

/-! ## Conservation through `removeCardFromSource` and `playCard` -/

lemma remove_blitz_cardsOf {p : Player} {card : Card}
    (h : p.blitzPile.head? = some card) :
    cardsOf (p.removeCardFromSource .blitz) + {card} = cardsOf p := by
  cases hb : p.blitzPile with
  | nil => rw [hb] at h; cases h
  | cons x t =>
    rw [hb] at h
    cases h
    simp only [Player.removeCardFromSource, cardsOf, hb, List.tail_cons,
      ← Multiset.cons_coe, ← Multiset.singleton_add]
    abel

lemma remove_post_cardsOf {p : Player} {j : Nat} {pile : List Card} {card : Card}
    (h : p.postPiles.get? j = some pile) (hh : pile.head? = some card) :
    cardsOf (p.removeCardFromSource (.post j)) + {card} = cardsOf p := by
  cases hp : pile with
  | nil => rw [hp] at hh; cases hh
  | cons x t =>
    rw [hp] at hh
    cases hh
    rw [hp] at h
    have hgetD : p.postPiles.getD j [] = card :: t := by
      rw [List.getD_eq_getElem?_getD, ← List.get?_eq_getElem?, h]; rfl
    have hset := multiset_flatten_set p.postPiles j t (card :: t) h
    simp only [Player.removeCardFromSource, cardsOf, hgetD, List.tail_cons]
    have hpile : ((card :: t : List Card) : Multiset Card) = {card} + ↑t := by
      simp only [← Multiset.cons_coe, ← Multiset.singleton_add]
    have key : (↑(p.postPiles.set j t).flatten : Multiset Card) + {card} =
        ↑p.postPiles.flatten := by
      have h2 : (↑(p.postPiles.set j t).flatten : Multiset Card) + ({card} + ↑t) =
          ↑p.postPiles.flatten + ↑t := by rw [← hpile]; exact hset
      have h3 : (↑(p.postPiles.set j t).flatten : Multiset Card) + {card} + ↑t =
          ↑p.postPiles.flatten + ↑t := by rw [add_assoc]; exact h2
      exact add_right_cancel h3
    calc (↑p.blitzPile + ↑p.drawPile + ↑p.drawRevealed +
            ↑(p.postPiles.set j t).flatten : Multiset Card) + {card}
        = ↑p.blitzPile + ↑p.drawPile + ↑p.drawRevealed +
            (↑(p.postPiles.set j t).flatten + {card}) := by abel
      _ = ↑p.blitzPile + ↑p.drawPile + ↑p.drawRevealed + ↑p.postPiles.flatten := by
            rw [key]

lemma remove_counters (p : Player) (source : Source) :
    (p.removeCardFromSource source).playsThisRound = p.playsThisRound ∧
    (p.removeCardFromSource source).totalPlays = p.totalPlays ∧
    (p.removeCardFromSource source).strategy = p.strategy := by
  cases source <;> exact ⟨rfl, rfl, rfl⟩

lemma remove_draw_cardsOf {p : Player} {j : Nat} {card : Card}
    (h : p.drawRevealed.get? j = some card) :
    cardsOf (p.removeCardFromSource (.draw j)) + {card} = cardsOf p := by
  have he := multiset_eraseIdx p.drawRevealed j card h
  simp only [Player.removeCardFromSource, cardsOf]
  calc (↑p.blitzPile + ↑p.drawPile + ↑(p.drawRevealed.eraseIdx j) +
          ↑p.postPiles.flatten : Multiset Card) + {card}
      = ↑p.blitzPile + ↑p.drawPile + (↑(p.drawRevealed.eraseIdx j) + {card}) +
          ↑p.postPiles.flatten := by abel
    _ = ↑p.blitzPile + ↑p.drawPile + ↑p.drawRevealed + ↑p.postPiles.flatten := by
          rw [he]

/-- Whenever the placement predicate rejects, `playCard` returns false and
leaves the player and the Dutch piles exactly as they were. -/
lemma playCard_false {p : Player} {card : Card} {source : Source} {d : DutchPiles}
    {tgt : Option Nat} (h : (p.playCard card source d tgt).2.2 = false) :
    p.playCard card source d tgt = (p, d, false) := by
  cases tgt with
  | some i =>
    simp only [Player.playCard] at h ⊢
    split at h
    · simp at h
    · rename_i hcond
      rw [if_neg hcond]
  | none =>
    simp only [Player.playCard] at h ⊢
    split at h
    · simp at h
    · rename_i hcond
      rw [if_neg hcond]

lemma dutchCards_push (d : DutchPiles) (c : Color) (card : Card) :
    dutchCards (d.set c (card :: d.get c)) = dutchCards d + {card} := by
  cases c <;>
    simp only [DutchPiles.set, DutchPiles.get, dutchCards, ← Multiset.cons_coe,
      ← Multiset.singleton_add] <;>
    abel

/-- A successful placement on a Dutch pile moves exactly the played card from
the hand to that Dutch pile. -/
lemma playCard_dutch_conserve {p : Player} {card : Card} {source : Source}
    {d : DutchPiles}
    (hmem : (card, source) ∈ p.getAvailableCards)
    (hok : (p.playCard card source d none).2.2 = true) :
    cardsOf (p.playCard card source d none).1 + {card} = cardsOf p ∧
    dutchCards (p.playCard card source d none).2.1 = dutchCards d + {card} := by
  simp only [Player.playCard] at hok ⊢
  split at hok
  case isFalse => simp at hok
  case isTrue hc =>
    rw [if_pos hc]
    constructor
    · show cardsOf (p.removeCardFromSource source) + {card} = cardsOf p
      cases source with
      | blitz => exact remove_blitz_cardsOf (avail_blitz hmem)
      | post j =>
        obtain ⟨pile, hp, hh⟩ := avail_post hmem
        exact remove_post_cardsOf hp hh
      | draw j => exact remove_draw_cardsOf (avail_draw hmem)
    · exact dutchCards_push d card.color card

/-- A successful placement on a post pile permutes the hand's cards and leaves
the Dutch piles untouched. -/
lemma playCard_post_conserve {p : Player} {card : Card} {source : Source}
    {d : DutchPiles} {i : Nat}
    (hmem : (card, source) ∈ p.getAvailableCards)
    (hi : i < p.postPiles.length)
    (hok : (p.playCard card source d (some i)).2.2 = true) :
    cardsOf (p.playCard card source d (some i)).1 = cardsOf p ∧
    (p.playCard card source d (some i)).2.1 = d := by
  simp only [Player.playCard] at hok ⊢
  split at hok
  case isFalse => simp at hok
  case isTrue hc =>
    rw [if_pos hc]
    refine ⟨?_, rfl⟩
    have hget : p.postPiles.get? i = some (p.postPiles.getD i []) := by
      rw [List.getD_eq_getElem?_getD, ← List.get?_eq_getElem?, List.get?_eq_get hi]
      rfl
    set pile := p.postPiles.getD i [] with hpile
    set p1 : Player := { p with postPiles := p.postPiles.set i (card :: pile) } with hp1
    show cardsOf (p1.removeCardFromSource source) = cardsOf p
    have hcards1 : cardsOf p1 = cardsOf p + {card} := by
      have hs := multiset_flatten_set p.postPiles i (card :: pile) pile hget
      have hcons : ((card :: pile : List Card) : Multiset Card) = {card} + ↑pile := by
        simp only [← Multiset.cons_coe, ← Multiset.singleton_add]
      have h2 : (↑(p.postPiles.set i (card :: pile)).flatten : Multiset Card) + ↑pile =
          ↑p.postPiles.flatten + {card} + ↑pile := by
        rw [hs, hcons]; abel
      have h3 := add_right_cancel h2
      simp only [cardsOf, hp1]
      rw [h3]
      abel
    cases source with
    | blitz =>
      have hb : p1.blitzPile.head? = some card := by
        rw [hp1]; exact avail_blitz (p := p) hmem
      have h4 := remove_blitz_cardsOf hb
      rw [hcards1] at h4
      exact add_right_cancel h4
    | draw j =>
      have hb : p1.drawRevealed.get? j = some card := by
        rw [hp1]; exact avail_draw (p := p) hmem
      have h4 := remove_draw_cardsOf hb
      rw [hcards1] at h4
      exact add_right_cancel h4
    | post j =>
      obtain ⟨pileJ, hpj, hhj⟩ := avail_post hmem
      by_cases hij : j = i
      · subst hij
        rw [hget] at hpj
        have hpe : pile = pileJ := Option.some.inj hpj
        subst hpe
        rw [hhj] at hc
        simp [Card.canPostOn] at hc
      · have hpj1 : p1.postPiles.get? j = some pileJ := by
          rw [hp1]
          show (p.postPiles.set i (card :: pile)).get? j = some pileJ
          rw [List.get?_set_ne _ _ (fun he => hij he.symm)]
          exact hpj
        have h4 := remove_post_cardsOf hpj1 hhj
        rw [hcards1] at h4
        exact add_right_cancel h4

/-- `playCard` bumps `playsThisRound` and `totalPlays` by one exactly on
success. -/
lemma playCard_counters {p : Player} {card : Card} {source : Source}
    {d : DutchPiles} {tgt : Option Nat}
    (hok : (p.playCard card source d tgt).2.2 = true) :
    (p.playCard card source d tgt).1.playsThisRound = p.playsThisRound + 1 ∧
    (p.playCard card source d tgt).1.totalPlays = p.totalPlays + 1 ∧
    (p.playCard card source d tgt).1.strategy = p.strategy := by
  cases tgt with
  | some i =>
    simp only [Player.playCard] at hok ⊢
    split at hok
    case isFalse => simp at hok
    case isTrue hc =>
      rw [if_pos hc]
      have h1 := remove_counters
        { p with postPiles := p.postPiles.set i (card :: p.postPiles.getD i []) } source
      dsimp only [Player.bumpPlays]
      exact ⟨by rw [h1.1], by rw [h1.2.1], h1.2.2⟩
  | none =>
    simp only [Player.playCard] at hok ⊢
    split at hok
    case isFalse => simp at hok
    case isTrue hc =>
      rw [if_pos hc]
      have h1 := remove_counters p source
      dsimp only [Player.bumpPlays]
      exact ⟨by rw [h1.1], by rw [h1.2.1], h1.2.2⟩

/-- `playCard` can only pop the blitz pile, never grow it. -/
lemma playCard_blitz {p : Player} {card : Card} {source : Source}
    {d : DutchPiles} {tgt : Option Nat} :
    (p.playCard card source d tgt).1.blitzPile = p.blitzPile ∨
    (p.playCard card source d tgt).1.blitzPile = p.blitzPile.tail := by
  cases tgt with
  | some i =>
    simp only [Player.playCard]
    split
    · cases source with
      | blitz => exact Or.inr rfl
      | post j => exact Or.inl rfl
      | draw j => exact Or.inl rfl
    · exact Or.inl rfl
  | none =>
    simp only [Player.playCard]
    split
    · cases source with
      | blitz => exact Or.inr rfl
      | post j => exact Or.inl rfl
      | draw j => exact Or.inl rfl
    · exact Or.inl rfl

/-! ## Shuffling and dealing conserve the deck -/

lemma swapL_multiset (l : List Card) (i j : Nat) :
    ((swapL l i j : List Card) : Multiset Card) = ↑l := by
  unfold swapL
  cases hi : l.get? i with
  | none => rfl
  | some a =>
    cases hj : l.get? j with
    | none => rfl
    | some b =>
      by_cases hij : i = j
      · subst hij
        have hab : a = b := Option.some.inj (hi ▸ hj)
        subst hab
        show (((l.set i a).set i a : List Card) : Multiset Card) = ↑l
        rw [List.set_set]
        exact add_right_cancel (multiset_set l i a a hi)
      · have h1 := multiset_set l i b a hi
        have hj2 : (l.set i b).get? j = some b := by
          rw [List.get?_set_ne _ _ hij]; exact hj
        have h2 := multiset_set (l.set i b) j a b hj2
        rw [h1] at h2
        show (((l.set i b).set j a : List Card) : Multiset Card) = ↑l
        exact add_right_cancel h2

lemma fisherYates_multiset (rand : Nat → Nat) (l : List Card) (n : Nat) :
    ((fisherYates rand l n : List Card) : Multiset Card) = ↑l := by
  induction n generalizing l with
  | zero => rfl
  | succ m ih =>
    show ((fisherYates rand (swapL l (m + 1) (rand (m + 1) % (m + 2))) m :
      List Card) : Multiset Card) = ↑l
    rw [ih, swapL_multiset]

lemma shuffle_multiset (rand : Nat → Nat) (l : List Card) :
    ((shuffle rand l : List Card) : Multiset Card) = ↑l :=
  fisherYates_multiset rand l (l.length - 1)

/-- `initializeCards` always deals exactly the full 40-card deck into the
hand, whatever the shuffle did. -/
lemma initCards_cardsOf (rand : Nat → Nat) (p : Player) :
    cardsOf (p.initCards rand) = ↑mkDeck := by
  unfold Player.initCards
  rw [drawCards_cardsOf]
  simp only [cardsOf]
  rw [show (([[], [], []] : List (List Card)).flatten) = [] from rfl]
  simp only [Multiset.coe_reverse, Multiset.coe_nil, add_zero]
  rw [coeM_take_drop, shuffle_multiset]

/-! ## Single-hand operation sequences (deal, place, cycleDraw) -/

/-- One core hand operation of a round: `cycleDraw`, or a `place` with the
engine's arguments. -/
inductive RoundOp where
  | cycle
  | place (card : Card) (source : Source) (target : Option Nat)

def execOp (pd : Player × DutchPiles) : RoundOp → Player × DutchPiles
  | .cycle => ((pd.1.drawCards).1, pd.2)
  | .place card source target =>
    ((pd.1.playCard card source pd.2 target).1,
     (pd.1.playCard card source pd.2 target).2.1)

def execOps (pd : Player × DutchPiles) : List RoundOp → Player × DutchPiles
  | [] => pd
  | op :: ops => execOps (execOp pd op) ops

/-- A `place` is well formed when its card/source pair is one the engine's
`getAvailableCards` currently offers (the engine only ever calls `playCard`
with such pairs) and its post-pile index, if any, is in range (JS would throw
otherwise). -/
def WFop (pd : Player × DutchPiles) : RoundOp → Prop
  | .cycle => True
  | .place card source target =>
    (card, source) ∈ pd.1.getAvailableCards ∧
    ∀ i, target = some i → i < pd.1.postPiles.length

def WFops (pd : Player × DutchPiles) : List RoundOp → Prop
  | [] => True
  | op :: ops => WFop pd op ∧ WFops (execOp pd op) ops

lemma execOp_conserve (pd : Player × DutchPiles) (op : RoundOp) (h : WFop pd op) :
    cardsOf (execOp pd op).1 + dutchCards (execOp pd op).2 =
    cardsOf pd.1 + dutchCards pd.2 := by
  cases op with
  | cycle =>
    show cardsOf (pd.1.drawCards).1 + dutchCards pd.2 = _
    rw [drawCards_cardsOf]
  | place card source target =>
    obtain ⟨hmem, htgt⟩ := h
    cases target with
    | none =>
      cases hok : (pd.1.playCard card source pd.2 none).2.2 with
      | false =>
        have hf := playCard_false hok
        show cardsOf (pd.1.playCard card source pd.2 none).1 +
          dutchCards (pd.1.playCard card source pd.2 none).2.1 = _
        rw [hf]
      | true =>
        obtain ⟨h1, h2⟩ := playCard_dutch_conserve hmem hok
        show cardsOf (pd.1.playCard card source pd.2 none).1 +
          dutchCards (pd.1.playCard card source pd.2 none).2.1 = _
        rw [h2, ← h1]
        abel
    | some i =>
      cases hok : (pd.1.playCard card source pd.2 (some i)).2.2 with
      | false =>
        have hf := playCard_false hok
        show cardsOf (pd.1.playCard card source pd.2 (some i)).1 +
          dutchCards (pd.1.playCard card source pd.2 (some i)).2.1 = _
        rw [hf]
      | true =>
        obtain ⟨h1, h2⟩ := playCard_post_conserve hmem (htgt i rfl) hok
        show cardsOf (pd.1.playCard card source pd.2 (some i)).1 +
          dutchCards (pd.1.playCard card source pd.2 (some i)).2.1 = _
        rw [h1, h2]

lemma execOps_conserve (ops : List RoundOp) (pd : Player × DutchPiles)
    (h : WFops pd ops) :
    cardsOf (execOps pd ops).1 + dutchCards (execOps pd ops).2 =
    cardsOf pd.1 + dutchCards pd.2 := by
  induction ops generalizing pd with
  | nil => rfl
  | cons op ops ih =>
    obtain ⟨h1, h2⟩ := h
    show cardsOf (execOps (execOp pd op) ops).1 +
      dutchCards (execOps (execOp pd op) ops).2 = _
    rw [ih (execOp pd op) h2, execOp_conserve pd op h1]

/-- A fixed sample hand used to instantiate theorems with hypotheses. -/
def samplePlayer : Player :=
  { blitzPile := [Card.mk 5 .red], postPiles := [[], [], []], drawPile := [],
    drawRevealed := [], playsThisRound := 0, totalPlays := 0, wins := 0,
    strategy := .aggressive }

/-- C1: over any well-formed sequence of core operations after a deal, the
multiset of cards in the hand's piles plus the cards on the foundations (all
of which this single hand has played there, foundations being empty at round
start) is exactly the 40-card deck; no card is created, duplicated or lost. -/
theorem C1_hand_card_conservation (rand : Nat → Nat) (p0 : Player)
    (ops : List RoundOp)
    (h : WFops (p0.initCards rand, emptyDutch) ops) :
    cardsOf (execOps (p0.initCards rand, emptyDutch) ops).1 +
      dutchCards (execOps (p0.initCards rand, emptyDutch) ops).2 =
      ↑mkDeck ∧ (↑mkDeck : Multiset Card).card = 40 := by
  refine ⟨?_, by decide⟩
  rw [execOps_conserve ops _ h, initCards_cardsOf]
  simp [dutchCards, emptyDutch]

theorem C1_witness :
    cardsOf (execOps (samplePlayer.initCards (fun _ => 0), emptyDutch)
        [RoundOp.cycle]).1 +
      dutchCards (execOps (samplePlayer.initCards (fun _ => 0), emptyDutch)
        [RoundOp.cycle]).2 = ↑mkDeck ∧ (↑mkDeck : Multiset Card).card = 40 :=
  C1_hand_card_conservation (fun _ => 0) samplePlayer [RoundOp.cycle]
    ⟨trivial, trivial⟩

/-- C6: a placement that fails the destination predicate returns false and
mutates nothing: the player's piles, counters, and the shared foundations are
all unchanged. -/
theorem C6_playCard_atomic (p : Player) (card : Card) (source : Source)
    (d : DutchPiles) (tgt : Option Nat)
    (h : (p.playCard card source d tgt).2.2 = false) :
    (p.playCard card source d tgt).1 = p ∧
    (p.playCard card source d tgt).2.1 = d := by
  rw [playCard_false h]
  exact ⟨rfl, rfl⟩

theorem C6_witness :
    ((samplePlayer.playCard (Card.mk 5 .red) .blitz emptyDutch none).2.2 = false) ∧
    (samplePlayer.playCard (Card.mk 5 .red) .blitz emptyDutch none).1 =
      samplePlayer ∧
    (samplePlayer.playCard (Card.mk 5 .red) .blitz emptyDutch none).2.1 =
      emptyDutch :=
  ⟨by decide,
   C6_playCard_atomic samplePlayer (Card.mk 5 .red) .blitz emptyDutch none
     (by decide)⟩

/-! ## Basic facts about `drawCards` and `makeMove` -/

lemma drawCards_blitz (p : Player) : (p.drawCards).1.blitzPile = p.blitzPile := by
  unfold Player.drawCards
  split
  · rfl
  · split
    · rfl
    · split
      · rfl
      · rfl

lemma drawCards_counters (p : Player) :
    (p.drawCards).1.playsThisRound = p.playsThisRound ∧
    (p.drawCards).1.totalPlays = p.totalPlays ∧
    (p.drawCards).1.postPiles = p.postPiles ∧
    (p.drawCards).1.strategy = p.strategy ∧
    (p.drawCards).1.wins = p.wins := by
  unfold Player.drawCards
  split
  · exact ⟨rfl, rfl, rfl, rfl, rfl⟩
  · split
    · exact ⟨rfl, rfl, rfl, rfl, rfl⟩
    · split
      · exact ⟨rfl, rfl, rfl, rfl, rfl⟩
      · exact ⟨rfl, rfl, rfl, rfl, rfl⟩

/-- The refresh step at the top of `makeMove`. -/
def refreshDraw (p : Player) : Player :=
  if p.drawRevealed = [] ∧ p.drawPile ≠ [] then (p.drawCards).1 else p

lemma refreshDraw_blitz (p : Player) : (refreshDraw p).blitzPile = p.blitzPile := by
  unfold refreshDraw
  split
  · exact drawCards_blitz p
  · rfl

lemma refreshDraw_cardsOf (p : Player) : cardsOf (refreshDraw p) = cardsOf p := by
  unfold refreshDraw
  split
  · exact drawCards_cardsOf p
  · rfl

lemma refreshDraw_counters (p : Player) :
    (refreshDraw p).playsThisRound = p.playsThisRound ∧
    (refreshDraw p).totalPlays = p.totalPlays ∧
    (refreshDraw p).postPiles = p.postPiles ∧
    (refreshDraw p).strategy = p.strategy ∧
    (refreshDraw p).wins = p.wins := by
  unfold refreshDraw
  split
  · exact drawCards_counters p
  · exact ⟨rfl, rfl, rfl, rfl, rfl⟩

/-- `makeMove` unfolded through the refresh step. -/
lemma makeMove_eq (p : Player) (d : DutchPiles) (oracle : Nat → ℚ) (idx : Nat) :
    makeMove p d oracle idx =
      (match pickBest (collectMoves (refreshDraw p).strategy oracle d
          (refreshDraw p).postPiles (refreshDraw p).getAvailableCards idx).1 with
       | none =>
         (((refreshDraw p).drawCards).1, d,
          (collectMoves (refreshDraw p).strategy oracle d (refreshDraw p).postPiles
            (refreshDraw p).getAvailableCards idx).2,
          ((refreshDraw p).drawCards).2)
       | some bestMove =>
         match bestMove.target with
         | .dutch =>
           (((refreshDraw p).playCard bestMove.card bestMove.source d none).1,
            ((refreshDraw p).playCard bestMove.card bestMove.source d none).2.1,
            (collectMoves (refreshDraw p).strategy oracle d (refreshDraw p).postPiles
              (refreshDraw p).getAvailableCards idx).2,
            ((refreshDraw p).playCard bestMove.card bestMove.source d none).2.2)
         | .post i =>
           (((refreshDraw p).playCard bestMove.card bestMove.source d (some i)).1,
            ((refreshDraw p).playCard bestMove.card bestMove.source d (some i)).2.1,
            (collectMoves (refreshDraw p).strategy oracle d (refreshDraw p).postPiles
              (refreshDraw p).getAvailableCards idx).2,
            ((refreshDraw p).playCard bestMove.card bestMove.source d (some i)).2.2)) := by
  unfold makeMove refreshDraw
  split
  · rfl
  · rfl

lemma pickBest_mem {ms : List Move} {m : Move} (h : pickBest ms = some m) : m ∈ ms := by
  cases ms with
  | nil => cases h
  | cons x t =>
    have hfold : ∀ (l : List Move) (b : Move),
        l.foldl (fun best x => if best.priority < x.priority then x else best) b = b ∨
        l.foldl (fun best x => if best.priority < x.priority then x else best) b ∈ l := by
      intro l
      induction l with
      | nil => intro b; exact Or.inl rfl
      | cons y u ih =>
        intro b
        rcases ih (if b.priority < y.priority then y else b) with h1 | h1
        · rw [List.foldl_cons, h1]
          by_cases hb : b.priority < y.priority
          · rw [if_pos hb]; exact Or.inr (List.mem_cons_self y u)
          · rw [if_neg hb]; exact Or.inl rfl
        · rw [List.foldl_cons]
          exact Or.inr (List.mem_cons_of_mem y h1)
    have hm : m = t.foldl (fun best x => if best.priority < x.priority then x else best) x :=
      (Option.some.inj h).symm
    rcases hfold t x with h1 | h1
    · rw [hm, h1]; exact List.mem_cons_self x t
    · rw [hm]; exact List.mem_cons_of_mem x h1

lemma collectPostMoves_mem {strategy : Strategy} {oracle : Nat → ℚ} {card : Card}
    {source : Source} {piles : List (Nat × List Card)} {idx : Nat} {m : Move}
    (h : m ∈ (collectPostMoves strategy oracle card source piles idx).1) :
    m.card = card ∧ m.source = source ∧
    ∃ i, m.target = .post i ∧ ∃ pile, (i, pile) ∈ piles := by
  induction piles generalizing idx with
  | nil => cases h
  | cons ip rest ih =>
    unfold collectPostMoves at h
    split at h
    · rcases List.mem_cons.1 h with h1 | h1
      · subst h1
        refine ⟨rfl, rfl, ip.1, rfl, ip.2, ?_⟩
        rw [show (ip.1, ip.2) = ip from rfl]
        exact List.mem_cons_self _ _
      · obtain ⟨h2, h3, i, h4, pile, h5⟩ := ih h1
        exact ⟨h2, h3, i, h4, pile, List.mem_cons_of_mem _ h5⟩
    · obtain ⟨h2, h3, i, h4, pile, h5⟩ := ih h
      exact ⟨h2, h3, i, h4, pile, List.mem_cons_of_mem _ h5⟩

lemma dutchCandidate_mem {strategy : Strategy} {oracle : Nat → ℚ} {d : DutchPiles}
    {cs : Card × Source} {idx : Nat} {m : Move}
    (h : m ∈ (dutchCandidate strategy oracle d cs idx).1) :
    m.card = cs.1 ∧ m.source = cs.2 ∧ m.target = .dutch := by
  unfold dutchCandidate at h
  split at h
  · rcases List.mem_singleton.1 h with rfl
    exact ⟨rfl, rfl, rfl⟩
  · cases h

lemma collectMoves_mem {strategy : Strategy} {oracle : Nat → ℚ} {d : DutchPiles}
    {pps : List (List Card)} {avail : List (Card × Source)} {idx : Nat} {m : Move}
    (h : m ∈ (collectMoves strategy oracle d pps avail idx).1) :
    (m.card, m.source) ∈ avail ∧ ∀ i, m.target = .post i → i < pps.length := by
  induction avail generalizing idx with
  | nil => cases h
  | cons cs rest ih =>
    unfold collectMoves at h
    rcases List.mem_append.1 h with h1 | h1
    · rcases List.mem_append.1 h1 with h2 | h2
      · obtain ⟨hcard, hsource, htgt⟩ := dutchCandidate_mem h2
        refine ⟨?_, ?_⟩
        · rw [hcard, hsource, show (cs.1, cs.2) = cs from rfl]
          exact List.mem_cons_self _ _
        · intro i hi
          rw [htgt] at hi
          cases hi
      · obtain ⟨hcard, hsource, i, htgt, pile, hpile⟩ := collectPostMoves_mem h2
        refine ⟨?_, ?_⟩
        · rw [hcard, hsource, show (cs.1, cs.2) = cs from rfl]
          exact List.mem_cons_self _ _
        · intro j hj
          rw [htgt] at hj
          cases hj
          have h3 := List.mk_mem_enum_iff_getElem?.1 hpile
          exact (List.getElem?_eq_some.1 h3).1
    · obtain ⟨h2, h3⟩ := ih h1
      exact ⟨List.mem_cons_of_mem _ h2, h3⟩

/-! ## Foundation invariant -/

/-- Every card in the hand has a value between 1 and 10 (true of any dealt
hand, since the deck is built that way). -/
def ValueBound (p : Player) : Prop :=
  ∀ c ∈ cardsOf p, 1 ≤ c.value ∧ c.value ≤ 10

/-- The unique legal shape of a Dutch pile of color `c` holding `k` cards:
ranks `k, k-1, ..., 1` from top to bottom. -/
def foundList (c : Color) : Nat → List Card
  | 0 => []
  | k + 1 => Card.mk (k + 1) c :: foundList c k

/-- Every Dutch pile is, bottom to top, the consecutive ranks `1..k` of its
color for some `k ≤ 10`. -/
def FoundationOk (d : DutchPiles) : Prop :=
  ∀ c : Color, ∃ k, k ≤ 10 ∧ d.get c = foundList c k

lemma DutchPiles.get_set_self (d : DutchPiles) (c : Color) (l : List Card) :
    (d.set c l).get c = l := by
  cases c <;> rfl

lemma DutchPiles.get_set_ne (d : DutchPiles) (c c' : Color) (l : List Card)
    (h : c ≠ c') : (d.set c l).get c' = d.get c' := by
  cases c <;> cases c' <;> first | rfl | exact absurd rfl h

lemma foundationOk_empty : FoundationOk emptyDutch := by
  intro c
  exact ⟨0, by omega, by cases c <;> rfl⟩

lemma valueBound_mono {p q : Player} (h : cardsOf p ≤ cardsOf q)
    (hv : ValueBound q) : ValueBound p :=
  fun c hc => hv c (Multiset.mem_of_le h hc)

/-- Pushing a card that passes `canPlayOn` onto the Dutch pile of its color
keeps the foundation invariant, provided the card's value is at most 10. -/
lemma foundationOk_push {d : DutchPiles} {card : Card}
    (hf : FoundationOk d)
    (hcan : card.canPlayOn ((d.get card.color).head?) = true)
    (hv10 : card.value ≤ 10) :
    FoundationOk (d.set card.color (card :: d.get card.color)) := by
  obtain ⟨k, hk, heq⟩ := hf card.color
  have hcv : card.value = k + 1 := by
    cases k with
    | zero =>
      rw [heq] at hcan
      simpa [Card.canPlayOn, foundList] using hcan
    | succ m =>
      rw [heq] at hcan
      simp [Card.canPlayOn, foundList] at hcan
      exact hcan
  intro c
  by_cases hc : c = card.color
  · subst hc
    refine ⟨k + 1, by omega, ?_⟩
    rw [DutchPiles.get_set_self, heq]
    show card :: foundList card.color k =
      Card.mk (k + 1) card.color :: foundList card.color k
    have hcard : card = Card.mk (k + 1) card.color := by
      cases card with
      | mk v col =>
        rw [Card.mk.injEq]
        exact ⟨hcv, rfl⟩
    rw [← hcard]
  · obtain ⟨k', hk', heq'⟩ := hf c
    refine ⟨k', hk', ?_⟩
    rw [DutchPiles.get_set_ne _ _ _ _ (fun he => hc he.symm)]
    exact heq'

lemma playCard_dutch_guard {p : Player} {card : Card} {source : Source}
    {d : DutchPiles} (h : (p.playCard card source d none).2.2 = true) :
    card.canPlayOn ((d.get card.color).head?) = true := by
  by_cases hc : card.canPlayOn ((d.get card.color).head?)
  · exact hc
  · simp only [Player.playCard, if_neg hc] at h
    cases h

lemma playCard_dutch_d {p : Player} {card : Card} {source : Source}
    {d : DutchPiles} (h : (p.playCard card source d none).2.2 = true) :
    (p.playCard card source d none).2.1 =
      d.set card.color (card :: d.get card.color) := by
  have hc := playCard_dutch_guard h
  simp only [Player.playCard, if_pos hc]

lemma playCard_post_d (p : Player) (card : Card) (source : Source)
    (d : DutchPiles) (i : Nat) :
    (p.playCard card source d (some i)).2.1 = d := by
  simp only [Player.playCard]
  split
  · rfl
  · rfl

/-- One bot invocation can at most move one of the hand's cards out of the
hand, and keeps the foundation invariant. -/
lemma makeMove_effects (p : Player) (d : DutchPiles) (oracle : Nat → ℚ)
    (idx : Nat) (hv : ValueBound p) (hf : FoundationOk d) :
    cardsOf (makeMove p d oracle idx).1 ≤ cardsOf p ∧
    FoundationOk (makeMove p d oracle idx).2.1 := by
  rw [makeMove_eq]
  have hvr : ValueBound (refreshDraw p) :=
    valueBound_mono (le_of_eq (refreshDraw_cardsOf p)) hv
  cases hpick : pickBest (collectMoves (refreshDraw p).strategy oracle d
      (refreshDraw p).postPiles (refreshDraw p).getAvailableCards idx).1 with
  | none =>
    refine ⟨?_, hf⟩
    show cardsOf ((refreshDraw p).drawCards).1 ≤ cardsOf p
    rw [drawCards_cardsOf, refreshDraw_cardsOf]
  | some m =>
    have hmem := collectMoves_mem (pickBest_mem hpick)
    obtain ⟨mc, ms, mt, mp⟩ := m
    cases mt with
    | dutch =>
      cases hok : ((refreshDraw p).playCard mc ms d none).2.2 with
      | false =>
        have hframe := playCard_false hok
        simp only [hframe]
        exact ⟨le_of_eq (refreshDraw_cardsOf p), hf⟩
      | true =>
        obtain ⟨h1, _⟩ := playCard_dutch_conserve hmem.1 hok
        constructor
        · show cardsOf ((refreshDraw p).playCard mc ms d none).1 ≤ cardsOf p
          rw [← refreshDraw_cardsOf p, ← h1]
          exact le_add_right (le_refl _)
        · show FoundationOk ((refreshDraw p).playCard mc ms d none).2.1
          rw [playCard_dutch_d hok]
          refine foundationOk_push hf (playCard_dutch_guard hok) ?_
          exact (hvr mc (avail_mem_cardsOf hmem.1)).2
    | post i =>
      cases hok : ((refreshDraw p).playCard mc ms d (some i)).2.2 with
      | false =>
        have hframe := playCard_false hok
        simp only [hframe]
        exact ⟨le_of_eq (refreshDraw_cardsOf p), hf⟩
      | true =>
        obtain ⟨h1, h2⟩ := playCard_post_conserve hmem.1 (hmem.2 i rfl) hok
        constructor
        · show cardsOf ((refreshDraw p).playCard mc ms d (some i)).1 ≤ cardsOf p
          rw [h1, refreshDraw_cardsOf]
        · show FoundationOk ((refreshDraw p).playCard mc ms d (some i)).2.1
          rw [h2]
          exact hf

/-- When the bot reports no move, the player's blitz pile, play counter and
card multiset, and the shared Dutch piles, are all unchanged. -/
lemma makeMove_false_frame (p : Player) (d : DutchPiles) (oracle : Nat → ℚ)
    (idx : Nat) (h : (makeMove p d oracle idx).2.2.2 = false) :
    (makeMove p d oracle idx).1.blitzPile = p.blitzPile ∧
    (makeMove p d oracle idx).2.1 = d ∧
    (makeMove p d oracle idx).1.playsThisRound = p.playsThisRound ∧
    cardsOf (makeMove p d oracle idx).1 = cardsOf p := by
  rw [makeMove_eq] at h ⊢
  cases hpick : pickBest (collectMoves (refreshDraw p).strategy oracle d
      (refreshDraw p).postPiles (refreshDraw p).getAvailableCards idx).1 with
  | none =>
    simp only [hpick]
    refine ⟨?_, trivial, ?_, ?_⟩
    · rw [drawCards_blitz, refreshDraw_blitz]
    · rw [(drawCards_counters _).1, (refreshDraw_counters p).1]
    · rw [drawCards_cardsOf, refreshDraw_cardsOf]
  | some m =>
    simp only [hpick] at h ⊢
    obtain ⟨mc, ms, mt, mp⟩ := m
    cases mt with
    | dutch =>
      have hframe := playCard_false h
      simp only [hframe]
      exact ⟨refreshDraw_blitz p, trivial, (refreshDraw_counters p).1, refreshDraw_cardsOf p⟩
    | post i =>
      have hframe := playCard_false h
      simp only [hframe]
      exact ⟨refreshDraw_blitz p, trivial, (refreshDraw_counters p).1, refreshDraw_cardsOf p⟩

/-- A bot invocation never grows the blitz pile: it is unchanged or popped. -/
lemma makeMove_blitz (p : Player) (d : DutchPiles) (oracle : Nat → ℚ) (idx : Nat) :
    (makeMove p d oracle idx).1.blitzPile = p.blitzPile ∨
    (makeMove p d oracle idx).1.blitzPile = p.blitzPile.tail := by
  rw [makeMove_eq]
  cases hpick : pickBest (collectMoves (refreshDraw p).strategy oracle d
      (refreshDraw p).postPiles (refreshDraw p).getAvailableCards idx).1 with
  | none =>
    left
    show ((refreshDraw p).drawCards).1.blitzPile = p.blitzPile
    rw [drawCards_blitz, refreshDraw_blitz]
  | some m =>
    obtain ⟨mc, ms, mt, mp⟩ := m
    cases mt with
    | dutch =>
      rcases @playCard_blitz (refreshDraw p) mc ms d none with h1 | h1
      · left
        show ((refreshDraw p).playCard mc ms d none).1.blitzPile = p.blitzPile
        rw [h1, refreshDraw_blitz]
      · right
        show ((refreshDraw p).playCard mc ms d none).1.blitzPile = p.blitzPile.tail
        rw [h1, refreshDraw_blitz]
    | post i =>
      rcases @playCard_blitz (refreshDraw p) mc ms d (some i) with h1 | h1
      · left
        show ((refreshDraw p).playCard mc ms d (some i)).1.blitzPile = p.blitzPile
        rw [h1, refreshDraw_blitz]
      · right
        show ((refreshDraw p).playCard mc ms d (some i)).1.blitzPile = p.blitzPile.tail
        rw [h1, refreshDraw_blitz]

/-! ## Invariants through the playTurn loops -/

lemma hasWon_iff (p : Player) : p.hasWon = true ↔ p.blitzPile = [] := by
  simp [Player.hasWon, List.isEmpty_iff]

/-- What one player's processing guarantees relative to its entry state:
cards can only leave the hand, the foundation invariant is kept, a winning
exit carries an emptied blitz pile, and a fall-through exit cannot have
emptied a non-empty blitz pile. -/
def InnerOutOk (p0 : Player) (r : InnerOut) : Prop :=
  match r with
  | .win p' d' _ _ => cardsOf p' ≤ cardsOf p0 ∧ FoundationOk d' ∧ p'.blitzPile = []
  | .cont p' d' _ _ _ _ => cardsOf p' ≤ cardsOf p0 ∧ FoundationOk d' ∧
      (p0.blitzPile ≠ [] → p'.blitzPile ≠ [])

lemma innerOutOk_trans {p0 p1 : Player} {r : InnerOut}
    (h : InnerOutOk p1 r) (hcard : cardsOf p1 ≤ cardsOf p0)
    (hblitz : p0.blitzPile ≠ [] → p1.blitzPile ≠ []) : InnerOutOk p0 r := by
  cases r with
  | win p' d' i' m' => exact ⟨le_trans h.1 hcard, h.2.1, h.2.2⟩
  | cont p' d' i' m' a' s' =>
    exact ⟨le_trans h.1 hcard, h.2.1, fun h0 => h.2.2 (hblitz h0)⟩

lemma afterMove_ok {p0 : Player} {mm : Player × DutchPiles × Nat × Bool}
    {mc st : Nat} (hcard : cardsOf mm.1 ≤ cardsOf p0) (hf : FoundationOk mm.2.1) :
    InnerOutOk p0 (afterMove mm mc st) := by
  unfold afterMove
  split
  · rename_i hw
    exact ⟨hcard, hf, (hasWon_iff _).1 hw⟩
  · rename_i hw
    exact ⟨hcard, hf, fun _ he => hw ((hasWon_iff _).2 he)⟩

lemma drawRetrySecond_ok {p0 p2 : Player} {d2 : DutchPiles} (oracle : Nat → ℚ)
    (idx2 mc : Nat) (am : Bool) (st : Nat)
    (hv0 : ValueBound p0)
    (hcard : cardsOf p2 ≤ cardsOf p0)
    (hblitz : p0.blitzPile ≠ [] → p2.blitzPile ≠ [])
    (hf : FoundationOk d2) :
    InnerOutOk p0 (drawRetrySecond oracle p2 d2 idx2 mc am st) := by
  unfold drawRetrySecond
  have hc2 : cardsOf (p2.drawCards).1 ≤ cardsOf p0 := by
    rw [drawCards_cardsOf]; exact hcard
  have hv2 : ValueBound (p2.drawCards).1 := valueBound_mono hc2 hv0
  split
  · exact ⟨hc2, hf, fun h0 => by rw [drawCards_blitz]; exact hblitz h0⟩
  · split
    · have heff := makeMove_effects (p2.drawCards).1 d2 oracle idx2 hv2 hf
      exact afterMove_ok (le_trans heff.1 hc2) heff.2
    · rename_i hnd hnm
      have hmf : (makeMove (p2.drawCards).1 d2 oracle idx2).2.2.2 = false := by
        simpa using hnm
      have hfr := makeMove_false_frame _ _ _ _ hmf
      refine ⟨?_, ?_, ?_⟩
      · rw [hfr.2.2.2, drawCards_cardsOf]; exact hcard
      · rw [hfr.2.1]; exact hf
      · intro h0
        rw [hfr.1, drawCards_blitz]
        exact hblitz h0

lemma drawRetry_ok {p0 p : Player} {d : DutchPiles} (oracle : Nat → ℚ)
    (idx mc : Nat) (am : Bool) (st : Nat)
    (hv0 : ValueBound p0)
    (hcard : cardsOf p ≤ cardsOf p0)
    (hblitz : p0.blitzPile ≠ [] → p.blitzPile ≠ [])
    (hf : FoundationOk d) :
    InnerOutOk p0 (drawRetry oracle p d idx mc am st) := by
  unfold drawRetry
  have hc1 : cardsOf (p.drawCards).1 ≤ cardsOf p0 := by
    rw [drawCards_cardsOf]; exact hcard
  have hv1 : ValueBound (p.drawCards).1 := valueBound_mono hc1 hv0
  split
  · exact ⟨hc1, hf, fun h0 => by rw [drawCards_blitz]; exact hblitz h0⟩
  · split
    · have heff := makeMove_effects (p.drawCards).1 d oracle idx hv1 hf
      exact afterMove_ok (le_trans heff.1 hc1) heff.2
    · rename_i hnd hnm
      have hmf : (makeMove (p.drawCards).1 d oracle idx).2.2.2 = false := by
        simpa using hnm
      have hfr := makeMove_false_frame _ _ _ _ hmf
      refine drawRetrySecond_ok oracle _ _ _ _ hv0 ?_ ?_ ?_
      · rw [hfr.2.2.2, drawCards_cardsOf]; exact hcard
      · intro h0
        rw [hfr.1, drawCards_blitz]
        exact hblitz h0
      · rw [hfr.2.1]; exact hf

lemma innerLoop_ok (oracle : Nat → ℚ) (fuel movesMade : Nat) (p : Player)
    (d : DutchPiles) (idx mc : Nat) (am : Bool) (st : Nat)
    (hv : ValueBound p) (hf : FoundationOk d) :
    InnerOutOk p (innerLoop oracle fuel movesMade p d idx mc am st) := by
  induction fuel generalizing movesMade p d idx mc am st with
  | zero => exact ⟨le_refl _, hf, fun h => h⟩
  | succ f ih =>
    unfold innerLoop
    split
    · split
      · split
        · rename_i hm hmoved hwon
          have heff := makeMove_effects p d oracle idx hv hf
          exact ⟨heff.1, heff.2, (hasWon_iff _).1 hwon⟩
        · rename_i hm hmoved hnwon
          have heff := makeMove_effects p d oracle idx hv hf
          have hvm := valueBound_mono heff.1 hv
          refine innerOutOk_trans (ih _ _ _ _ _ _ _ hvm heff.2) heff.1 ?_
          exact fun _ he => hnwon ((hasWon_iff _).2 he)
      · rename_i hm hnmoved
        have hmf : (makeMove p d oracle idx).2.2.2 = false := by simpa using hnmoved
        have hfr := makeMove_false_frame _ _ _ _ hmf
        refine drawRetry_ok oracle _ _ _ _ hv ?_ ?_ ?_
        · rw [hfr.2.2.2]
        · intro h0
          rw [hfr.1]
          exact h0
        · rw [hfr.2.1]; exact hf
    · exact ⟨le_refl _, hf, fun h => h⟩

lemma playersLoop_inv (oracle : Nat → ℚ) (rest : List Player) :
    ∀ (done : List Player) (d : DutchPiles) (idx mc : Nat) (am : Bool) (st : Nat),
    (∀ q ∈ done, ValueBound q) → (∀ q ∈ rest, ValueBound q) → FoundationOk d →
    (∀ q ∈ (playersLoop oracle done rest d idx mc am st).players, ValueBound q) ∧
    FoundationOk (playersLoop oracle done rest d idx mc am st).dutch := by
  induction rest with
  | nil => intro done d idx mc am st hvd hvr hf; exact ⟨hvd, hf⟩
  | cons p t ih =>
    intro done d idx mc am st hvd hvr hf
    unfold playersLoop
    split
    · refine ih (done ++ [p]) d idx mc am st ?_
        (fun q hq => hvr q (List.mem_cons_of_mem _ hq)) hf
      intro q hq
      rcases List.mem_append.1 hq with h1 | h1
      · exact hvd q h1
      · rw [List.mem_singleton.1 h1]
        exact hvr p (List.mem_cons_self _ _)
    · have hvp : ValueBound p := hvr p (List.mem_cons_self _ _)
      have hok := innerLoop_ok oracle 5 0 p d idx mc am st hvp hf
      cases hinner : innerLoop oracle 5 0 p d idx mc am st with
      | win p1 d1 idx1 mc1 =>
        rw [hinner] at hok
        refine ⟨?_, hok.2.1⟩
        intro q hq
        rcases List.mem_append.1 hq with h1 | h1
        · exact hvd q h1
        · rcases List.mem_cons.1 h1 with h2 | h2
          · rw [h2]
            exact valueBound_mono hok.1 hvp
          · exact hvr q (List.mem_cons_of_mem _ h2)
      | cont p1 d1 idx1 mc1 am1 st1 =>
        rw [hinner] at hok
        refine ih (done ++ [p1]) d1 idx1 mc1 am1 st1 ?_
          (fun q hq => hvr q (List.mem_cons_of_mem _ hq)) hok.2.1
        intro q hq
        rcases List.mem_append.1 hq with h1 | h1
        · exact hvd q h1
        · rw [List.mem_singleton.1 h1]
          exact valueBound_mono hok.1 hvp

/-! ## Reachable game states and the foundation invariant (C7) -/

lemma mkDeck_bound : ∀ c ∈ mkDeck, 1 ≤ c.value ∧ c.value ≤ 10 := by decide

lemma initCards_valueBound (rand : Nat → Nat) (p : Player) :
    ValueBound (p.initCards rand) := by
  intro c hc
  rw [initCards_cardsOf] at hc
  exact mkDeck_bound c (Multiset.mem_coe.1 hc)

/-- Joint invariant: all cards in play have values 1..10 and all foundations
are legal. -/
def GameInv (g : Game) : Prop :=
  (∀ q ∈ g.players, ValueBound q) ∧ FoundationOk g.dutchPiles

lemma setAt_wins_valueBound {ps : List Player} {i : Nat}
    (hv : ∀ q ∈ ps, ValueBound q) :
    ∀ q ∈ setAt ps i (fun p => { p with wins := p.wins + 1 }), ValueBound q := by
  unfold setAt
  cases hg : ps.get? i with
  | none => exact hv
  | some p =>
    intro q hq
    rcases List.mem_or_eq_of_mem_set hq with h1 | h1
    · exact hv q h1
    · rw [h1]
      intro c hc
      exact hv p (List.get?_mem hg) c hc

lemma endRound_inv {g : Game} {w : Option Nat} {now : Nat} (h : GameInv g) :
    GameInv (endRound g w now) := by
  cases w with
  | none => exact ⟨h.1, h.2⟩
  | some i => exact ⟨setAt_wins_valueBound h.1, h.2⟩

lemma playTurn_inv {g : Game} (oracle : Nat → ℚ) (idx now : Nat)
    (h : GameInv g) : GameInv (playTurn g oracle idx now).1 := by
  unfold playTurn
  split
  · have hL := playersLoop_inv oracle g.players [] g.dutchPiles idx g.moveCount
      false 0 (by intro q hq; cases hq) h.1 h.2
    unfold playTurnCore
    split
    · exact endRound_inv ⟨hL.1, hL.2⟩
    · split
      · exact endRound_inv ⟨hL.1, hL.2⟩
      · exact ⟨hL.1, hL.2⟩
  · exact h

lemma botMove_inv {g : Game} {i : Nat} {p : Player} (oracle : Nat → ℚ)
    (idx : Nat) (h : GameInv g) (hp : g.players.get? i = some p) :
    GameInv { g with
      players := g.players.set i (makeMove p g.dutchPiles oracle idx).1,
      dutchPiles := (makeMove p g.dutchPiles oracle idx).2.1 } := by
  have hvp : ValueBound p := h.1 p (List.get?_mem hp)
  have heff := makeMove_effects p g.dutchPiles oracle idx hvp h.2
  constructor
  · intro q hq
    rcases List.mem_or_eq_of_mem_set hq with h1 | h1
    · exact h.1 q h1
    · rw [h1]
      exact valueBound_mono heff.1 hvp
  · exact heff.2

lemma mkGame_inv (strats : Nat → Strategy) (n : Nat) : GameInv (mkGame strats n) := by
  constructor
  · intro q hq
    simp only [mkGame, List.mem_map] at hq
    obtain ⟨i, _, hqe⟩ := hq
    rw [← hqe]
    intro c hc
    simp [cardsOf] at hc
  · exact foundationOk_empty

lemma startNewRound_inv {g : Game} (rands : Nat → Nat → Nat) (now : Nat)
    (h : GameInv g) : GameInv (startNewRound g rands now) := by
  constructor
  · intro q hq
    simp only [startNewRound, List.mem_map] at hq
    obtain ⟨ip, _, hqe⟩ := hq
    rw [← hqe]
    exact initCards_valueBound _ _
  · exact foundationOk_empty

/-- States reachable from a fresh `DutchBlitzGame` by starting rounds, playing
turns, and individual bot placements. -/
inductive Reach : Game → Prop where
  | init (strats : Nat → Strategy) (n : Nat) : Reach (mkGame strats n)
  | start {g : Game} (rands : Nat → Nat → Nat) (now : Nat) :
      Reach g → Reach (startNewRound g rands now)
  | turn {g : Game} (oracle : Nat → ℚ) (idx now : Nat) :
      Reach g → Reach (playTurn g oracle idx now).1
  | botMove {g : Game} (i : Nat) (p : Player) (oracle : Nat → ℚ) (idx : Nat) :
      Reach g → g.players.get? i = some p →
      Reach { g with
        players := g.players.set i (makeMove p g.dutchPiles oracle idx).1,
        dutchPiles := (makeMove p g.dutchPiles oracle idx).2.1 }

lemma reach_inv {g : Game} (h : Reach g) : GameInv g := by
  induction h with
  | init strats n => exact mkGame_inv strats n
  | start rands now _ ih => exact startNewRound_inv rands now ih
  | turn oracle idx now _ ih => exact playTurn_inv oracle idx now ih
  | botMove i p oracle idx _ hp ih => exact botMove_inv oracle idx ih hp

/-- C7: in every reachable state, each shared foundation pile is, bottom to
top, the consecutive ranks 1..k (k ≤ 10) of that pile's single color: every
operation preserves that foundations build strictly upward by one from 1. -/
theorem C7_foundations_sequential {g : Game} (h : Reach g) :
    FoundationOk g.dutchPiles :=
  (reach_inv h).2

theorem C7_witness :
    FoundationOk (playTurn (startNewRound (mkGame (fun _ => .aggressive) 1)
      (fun _ _ => 0) 0) (fun _ => 0) 0 0).1.dutchPiles :=
  C7_foundations_sequential
    (Reach.turn (fun _ => 0) 0 0 (Reach.start (fun _ _ => 0) 0
      (Reach.init (fun _ => .aggressive) 1)))

/-! ## Blitz-pile facts through the loops (for win detection, C2) -/

/-- Blitz-pile-only guarantee of one player's processing: a winning exit has
an emptied blitz pile; a fall-through exit never emptied a non-empty one. -/
def InnerOutBlitz (p0 : Player) (r : InnerOut) : Prop :=
  match r with
  | .win p' _ _ _ => p'.blitzPile = []
  | .cont p' _ _ _ _ _ => p0.blitzPile ≠ [] → p'.blitzPile ≠ []

lemma innerOutBlitz_trans {p0 p1 : Player} {r : InnerOut}
    (h : InnerOutBlitz p1 r) (hblitz : p0.blitzPile ≠ [] → p1.blitzPile ≠ []) :
    InnerOutBlitz p0 r := by
  cases r with
  | win p' d' i' m' => exact h
  | cont p' d' i' m' a' s' => exact fun h0 => h (hblitz h0)

lemma afterMove_blitz {p0 : Player} {mm : Player × DutchPiles × Nat × Bool}
    {mc st : Nat} : InnerOutBlitz p0 (afterMove mm mc st) := by
  unfold afterMove
  split
  · rename_i hw
    exact (hasWon_iff _).1 hw
  · rename_i hw
    exact fun _ he => hw ((hasWon_iff _).2 he)

lemma drawRetrySecond_blitz {p0 p2 : Player} {d2 : DutchPiles} (oracle : Nat → ℚ)
    (idx2 mc : Nat) (am : Bool) (st : Nat)
    (hblitz : p0.blitzPile ≠ [] → p2.blitzPile ≠ []) :
    InnerOutBlitz p0 (drawRetrySecond oracle p2 d2 idx2 mc am st) := by
  unfold drawRetrySecond
  split
  · exact fun h0 => by rw [drawCards_blitz]; exact hblitz h0
  · split
    · exact afterMove_blitz
    · rename_i hnd hnm
      have hmf : (makeMove (p2.drawCards).1 d2 oracle idx2).2.2.2 = false := by
        simpa using hnm
      have hfr := makeMove_false_frame _ _ _ _ hmf
      intro h0
      rw [hfr.1, drawCards_blitz]
      exact hblitz h0

lemma drawRetry_blitz {p0 p : Player} {d : DutchPiles} (oracle : Nat → ℚ)
    (idx mc : Nat) (am : Bool) (st : Nat)
    (hblitz : p0.blitzPile ≠ [] → p.blitzPile ≠ []) :
    InnerOutBlitz p0 (drawRetry oracle p d idx mc am st) := by
  unfold drawRetry
  split
  · exact fun h0 => by rw [drawCards_blitz]; exact hblitz h0
  · split
    · exact afterMove_blitz
    · rename_i hnd hnm
      have hmf : (makeMove (p.drawCards).1 d oracle idx).2.2.2 = false := by
        simpa using hnm
      have hfr := makeMove_false_frame _ _ _ _ hmf
      refine drawRetrySecond_blitz oracle _ _ _ _ ?_
      intro h0
      rw [hfr.1, drawCards_blitz]
      exact hblitz h0

lemma innerLoop_blitz (oracle : Nat → ℚ) (fuel movesMade : Nat) (p : Player)
    (d : DutchPiles) (idx mc : Nat) (am : Bool) (st : Nat) :
    InnerOutBlitz p (innerLoop oracle fuel movesMade p d idx mc am st) := by
  induction fuel generalizing movesMade p d idx mc am st with
  | zero => exact fun h => h
  | succ f ih =>
    unfold innerLoop
    split
    · split
      · split
        · rename_i hm hmoved hwon
          exact (hasWon_iff _).1 hwon
        · rename_i hm hmoved hnwon
          refine innerOutBlitz_trans (ih _ _ _ _ _ _ _) ?_
          exact fun _ he => hnwon ((hasWon_iff _).2 he)
      · rename_i hm hnmoved
        have hmf : (makeMove p d oracle idx).2.2.2 = false := by simpa using hnmoved
        have hfr := makeMove_false_frame _ _ _ _ hmf
        refine drawRetry_blitz oracle _ _ _ _ ?_
        intro h0
        rw [hfr.1]
        exact h0
    · exact fun h => h

/-- Positional description of the player-loop outcome: the list keeps its
length, the already-processed prefix is untouched, everything after a winner
is untouched, no player other than the winner can have had a non-empty blitz
pile emptied, the winner's blitz pile is empty, and the winner lies in the
processed range. -/
lemma playersLoop_facts (oracle : Nat → ℚ) (rest : List Player) :
    ∀ (done : List Player) (d : DutchPiles) (idx mc : Nat) (am : Bool) (st : Nat),
    (playersLoop oracle done rest d idx mc am st).players.length =
      done.length + rest.length ∧
    (∀ j, j < done.length →
      (playersLoop oracle done rest d idx mc am st).players.get? j = done.get? j) ∧
    (∀ w, (playersLoop oracle done rest d idx mc am st).winnerIdx = some w →
      ∀ j, w < j →
        (playersLoop oracle done rest d idx mc am st).players.get? j =
          (done ++ rest).get? j) ∧
    (∀ j pj qj, (playersLoop oracle done rest d idx mc am st).winnerIdx ≠ some j →
      (playersLoop oracle done rest d idx mc am st).players.get? j = some pj →
      (done ++ rest).get? j = some qj → qj.blitzPile ≠ [] → pj.blitzPile ≠ []) ∧
    (∀ w, (playersLoop oracle done rest d idx mc am st).winnerIdx = some w →
      done.length ≤ w ∧
      ∃ p', (playersLoop oracle done rest d idx mc am st).players.get? w = some p' ∧
        p'.blitzPile = []) := by
  induction rest with
  | nil =>
    intro done d idx mc am st
    refine ⟨by simp [playersLoop], fun j hj => rfl, ?_, ?_, ?_⟩
    · intro w hw
      cases hw
    · intro j pj qj hne hp hq hb
      unfold playersLoop at hp
      rw [List.append_nil] at hq
      rw [hp] at hq
      cases hq
      exact hb
    · intro w hw
      cases hw
  | cons p t ih =>
    intro done d idx mc am st
    have hsingle : ∀ (p1 : Player), done ++ [p1] ++ t = done ++ p1 :: t := by
      intro p1
      rw [List.append_assoc]
      rfl
    unfold playersLoop
    split
    · -- hasWon p: skipped
      obtain ⟨ih1, ih2, ih3, ih4, ih5⟩ := ih (done ++ [p]) d idx mc am st
      refine ⟨?_, ?_, ?_, ?_, ?_⟩
      · rw [ih1]
        simp
        omega
      · intro j hj
        rw [ih2 j (by rw [List.length_append]; omega)]
        exact List.get?_append hj
      · intro w hw j hj
        rw [ih3 w hw j hj, hsingle]
      · intro j pj qj hne hp hq hb
        rw [← hsingle p] at hq
        exact ih4 j pj qj hne hp hq hb
      · intro w hw
        obtain ⟨hw1, hw2⟩ := ih5 w hw
        refine ⟨by rw [List.length_append] at hw1; omega, hw2⟩
    · -- innerLoop runs
      have hbl := innerLoop_blitz oracle 5 0 p d idx mc am st
      cases hinner : innerLoop oracle 5 0 p d idx mc am st with
      | win p1 d1 idx1 mc1 =>
        rw [hinner] at hbl
        refine ⟨?_, ?_, ?_, ?_, ?_⟩
        · simp
        · intro j hj
          exact List.get?_append hj
        · intro w hw j hj
          have hww : w = done.length := by
            cases hw
            rfl
          subst hww
          rw [List.get?_append_right (by omega), List.get?_append_right (by omega)]
          have hd : j - done.length = (j - done.length - 1) + 1 := by omega
          rw [hd]
          rfl
        · intro j pj qj hne hp hq hb
          have hjw : j ≠ done.length := by
            intro he
            exact hne (by rw [he])
          by_cases hj : j < done.length
          · rw [List.get?_append hj] at hp
            rw [List.get?_append hj] at hq
            rw [hp] at hq
            cases hq
            exact hb
          · have hj2 : done.length < j := by omega
            rw [List.get?_append_right (by omega)] at hp
            rw [List.get?_append_right (by omega)] at hq
            have hd : j - done.length = (j - done.length - 1) + 1 := by omega
            rw [hd] at hp hq
            rw [show ((p1 :: t).get? (j - done.length - 1 + 1)) =
              t.get? (j - done.length - 1) from rfl] at hp
            rw [show ((p :: t).get? (j - done.length - 1 + 1)) =
              t.get? (j - done.length - 1) from rfl] at hq
            rw [hp] at hq
            cases hq
            exact hb
        · intro w hw
          have hww : w = done.length := by
            cases hw
            rfl
          subst hww
          refine ⟨le_refl _, p1, ?_, hbl⟩
          rw [List.get?_append_right (le_refl _), Nat.sub_self]
          rfl
      | cont p1 d1 idx1 mc1 am1 st1 =>
        rw [hinner] at hbl
        obtain ⟨ih1, ih2, ih3, ih4, ih5⟩ := ih (done ++ [p1]) d1 idx1 mc1 am1 st1
        refine ⟨?_, ?_, ?_, ?_, ?_⟩
        · rw [ih1]
          simp
          omega
        · intro j hj
          rw [ih2 j (by rw [List.length_append]; omega)]
          exact List.get?_append hj
        · intro w hw j hj
          have hwlen := (ih5 w hw).1
          rw [List.length_append] at hwlen
          rw [ih3 w hw j hj, hsingle]
          rw [List.get?_append_right (by omega), List.get?_append_right (by omega)]
          have hd : j - done.length = (j - done.length - 1) + 1 := by omega
          rw [hd]
          rfl
        · intro j pj qj hne hp hq hb
          by_cases hj : j < done.length
          · rw [List.get?_append hj] at hq
            rw [ih2 j (by rw [List.length_append]; omega), List.get?_append hj] at hp
            rw [hp] at hq
            cases hq
            exact hb
          · by_cases hj2 : j = done.length
            · subst hj2
              rw [List.get?_append_right (le_refl _), Nat.sub_self] at hq
              have hq2 : qj = p := by
                cases hq
                rfl
              subst hq2
              rw [ih2 done.length (by simp)] at hp
              rw [List.get?_append_right (le_refl _), Nat.sub_self] at hp
              have hp2 : pj = p1 := by
                cases hp
                rfl
              subst hp2
              exact hbl hb
            · have hj3 : done.length < j := by omega
              have hq' : (done ++ [p1] ++ t).get? j = some qj := by
                rw [List.get?_append_right (by omega)] at hq
                have hd : j - done.length = (j - done.length - 1) + 1 := by omega
                rw [hd] at hq
                rw [show ((p :: t).get? (j - done.length - 1 + 1)) =
                  t.get? (j - done.length - 1) from rfl] at hq
                rw [List.get?_append_right (by simp; omega)]
                rw [show j - (done ++ [p1]).length = j - done.length - 1 from
                  by simp; omega]
                exact hq
              exact ih4 j pj qj hne hp hq' hb
        · intro w hw
          obtain ⟨hw1, hw2⟩ := ih5 w hw
          refine ⟨by rw [List.length_append] at hw1; omega, hw2⟩

/-! ## C2: first emptied blitz pile ends the round immediately -/

lemma setAt_get?_ne (ps : List Player) (i : Nat) (f : Player → Player) (j : Nat)
    (h : j ≠ i) : (setAt ps i f).get? j = ps.get? j := by
  unfold setAt
  cases hg : ps.get? i with
  | none => rfl
  | some p => exact List.get?_set_ne _ _ (fun he => h he.symm)

lemma endRound_winner (g : Game) (w : Option Nat) (now : Nat) :
    (endRound g w now).winner = w ∧ (endRound g w now).gameActive = false := by
  cases w with
  | none => exact ⟨rfl, rfl⟩
  | some i => exact ⟨rfl, rfl⟩

lemma endRound_players_none (g : Game) (now : Nat) :
    (endRound g none now).players = g.players := rfl

lemma endRound_players_some (g : Game) (i : Nat) (now : Nat) :
    (endRound g (some i) now).players =
      setAt g.players i (fun p => { p with wins := p.wins + 1 }) := rfl

lemma playTurnCore_none_players (g : Game) (L : LoopOut) (now : Nat)
    (hw : L.winnerIdx = none) :
    (playTurnCore g L now).1.players = L.players := by
  unfold playTurnCore
  rw [hw]
  dsimp only
  split
  · exact endRound_players_none _ _
  · rfl

lemma playTurnCore_some (g : Game) (L : LoopOut) (now : Nat) (w : Nat)
    (hw : L.winnerIdx = some w) :
    (playTurnCore g L now).1.players =
      setAt L.players w (fun p => { p with wins := p.wins + 1 }) ∧
    (playTurnCore g L now).1.winner = some w ∧
    (playTurnCore g L now).1.gameActive = false ∧
    (playTurnCore g L now).2 = true := by
  unfold playTurnCore
  rw [hw]
  exact ⟨rfl, rfl, rfl, rfl⟩

/-- C2: on an active round, whenever processing leaves some player's
previously non-empty blitz pile empty, `playTurn` has ended the round with
exactly that player as winner and returned true, leaving every later player
untouched (they were never processed in that call). -/
theorem C2_win_immediate (g : Game) (oracle : Nat → ℚ) (idx now : Nat)
    (i : Nat) (p0 p1 : Player)
    (hActive : g.gameActive = true)
    (h0 : g.players.get? i = some p0)
    (hne : p0.blitzPile ≠ [])
    (h1 : (playTurn g oracle idx now).1.players.get? i = some p1)
    (hempty : p1.blitzPile = []) :
    (playTurn g oracle idx now).1.winner = some i ∧
    (playTurn g oracle idx now).1.gameActive = false ∧
    (playTurn g oracle idx now).2 = true ∧
    ∀ j, i < j → (playTurn g oracle idx now).1.players.get? j = g.players.get? j := by
  have hturn : playTurn g oracle idx now =
      playTurnCore g (playersLoop oracle [] g.players g.dutchPiles idx
        g.moveCount false 0) now := by
    unfold playTurn
    rw [if_pos hActive]
  obtain ⟨hlen, hpre, huntouched, hpreserve, hwinfo⟩ :=
    playersLoop_facts oracle g.players [] g.dutchPiles idx g.moveCount false 0
  rw [hturn] at h1 ⊢
  cases hwi : (playersLoop oracle [] g.players g.dutchPiles idx
      g.moveCount false 0).winnerIdx with
  | none =>
    exfalso
    rw [playTurnCore_none_players g _ now hwi] at h1
    exact (hpreserve i p1 p0 (by rw [hwi]; intro hcc; cases hcc) h1
      (by rw [List.nil_append]; exact h0) hne) hempty
  | some w =>
    obtain ⟨hplayers, hwinner, hactive2, hret⟩ := playTurnCore_some g _ now w hwi
    rw [hplayers] at h1
    have hiw : i = w := by
      by_contra hneq
      rw [setAt_get?_ne _ _ _ _ hneq] at h1
      exact (hpreserve i p1 p0
        (by rw [hwi]; intro hcc; exact hneq (Option.some.inj hcc).symm) h1
        (by rw [List.nil_append]; exact h0) hne) hempty
    subst hiw
    refine ⟨hwinner, hactive2, hret, ?_⟩
    intro j hj
    rw [hplayers, setAt_get?_ne _ _ _ _ (by omega)]
    rw [huntouched i hwi j hj, List.nil_append]

/-! ## Quiet calls: what a false `anyPlayerMoved` guarantees (C3, C5) -/

/-- If one player's processing falls through with the `anyPlayerMoved` flag
still false, then it was false on entry and the player placed nothing: the
play counter, the shared Dutch piles and the global move count are unchanged. -/
def InnerOutQuiet (p0 : Player) (d0 : DutchPiles) (am0 : Bool) (mc0 : Nat)
    (r : InnerOut) : Prop :=
  match r with
  | .win _ _ _ _ => True
  | .cont p' d' _ mc' am' _ => am' = false →
      am0 = false ∧ p'.playsThisRound = p0.playsThisRound ∧ d' = d0 ∧ mc' = mc0

lemma afterMove_quiet {p0 : Player} {d0 : DutchPiles} {am0 : Bool} {mc0 : Nat}
    {mm : Player × DutchPiles × Nat × Bool} {mc st : Nat} :
    InnerOutQuiet p0 d0 am0 mc0 (afterMove mm mc st) := by
  unfold afterMove
  split
  · trivial
  · intro h
    cases h

lemma drawRetrySecond_quiet {p2 : Player} {d2 : DutchPiles} (oracle : Nat → ℚ)
    (idx2 mc : Nat) (am : Bool) (st : Nat) :
    InnerOutQuiet p2 d2 am mc (drawRetrySecond oracle p2 d2 idx2 mc am st) := by
  unfold drawRetrySecond
  split
  · intro h
    refine ⟨h, ?_, rfl, rfl⟩
    exact (drawCards_counters p2).1
  · split
    · exact afterMove_quiet
    · rename_i hnd hnm
      have hmf : (makeMove (p2.drawCards).1 d2 oracle idx2).2.2.2 = false := by
        simpa using hnm
      have hfr := makeMove_false_frame _ _ _ _ hmf
      intro h
      refine ⟨h, ?_, hfr.2.1, rfl⟩
      rw [hfr.2.2.1, (drawCards_counters p2).1]

lemma drawRetry_quiet {p : Player} {d : DutchPiles} (oracle : Nat → ℚ)
    (idx mc : Nat) (am : Bool) (st : Nat) :
    InnerOutQuiet p d am mc (drawRetry oracle p d idx mc am st) := by
  unfold drawRetry
  split
  · intro h
    refine ⟨h, ?_, rfl, rfl⟩
    exact (drawCards_counters p).1
  · split
    · exact afterMove_quiet
    · rename_i hnd hnm
      have hmf : (makeMove (p.drawCards).1 d oracle idx).2.2.2 = false := by
        simpa using hnm
      have hfr := makeMove_false_frame _ _ _ _ hmf
      have hq := @drawRetrySecond_quiet
        (makeMove (p.drawCards).1 d oracle idx).1
        (makeMove (p.drawCards).1 d oracle idx).2.1 oracle
        (makeMove (p.drawCards).1 d oracle idx).2.2.1 mc am st
      cases hr : drawRetrySecond oracle (makeMove (p.drawCards).1 d oracle idx).1
          (makeMove (p.drawCards).1 d oracle idx).2.1
          (makeMove (p.drawCards).1 d oracle idx).2.2.1 mc am st with
      | win p' d' i' m' => trivial
      | cont p' d' i' m' a' s' =>
        rw [hr] at hq
        intro h
        obtain ⟨h1, h2, h3, h4⟩ := hq h
        refine ⟨h1, ?_, ?_, h4⟩
        · rw [h2, hfr.2.2.1, (drawCards_counters p).1]
        · rw [h3, hfr.2.1]

lemma innerLoop_quiet (oracle : Nat → ℚ) (fuel movesMade : Nat) (p : Player)
    (d : DutchPiles) (idx mc : Nat) (am : Bool) (st : Nat) :
    InnerOutQuiet p d am mc (innerLoop oracle fuel movesMade p d idx mc am st) := by
  induction fuel generalizing movesMade p d idx mc am st with
  | zero => exact fun h => ⟨h, rfl, rfl, rfl⟩
  | succ f ih =>
    unfold innerLoop
    split
    · split
      · split
        · trivial
        · have hq := ih (movesMade + 1) (makeMove p d oracle idx).1
            (makeMove p d oracle idx).2.1 (makeMove p d oracle idx).2.2.1
            (mc + 1) true st
          cases hr : innerLoop oracle f (movesMade + 1) (makeMove p d oracle idx).1
              (makeMove p d oracle idx).2.1 (makeMove p d oracle idx).2.2.1
              (mc + 1) true st with
          | win p' d' i' m' => trivial
          | cont p' d' i' m' a' s' =>
            rw [hr] at hq
            intro h
            obtain ⟨h1, _⟩ := hq h
            cases h1
      · rename_i hm hnmoved
        have hmf : (makeMove p d oracle idx).2.2.2 = false := by simpa using hnmoved
        have hfr := makeMove_false_frame _ _ _ _ hmf
        have hq := drawRetry_quiet oracle (makeMove p d oracle idx).2.2.1 mc am st
          (p := (makeMove p d oracle idx).1) (d := (makeMove p d oracle idx).2.1)
        cases hr : drawRetry oracle (makeMove p d oracle idx).1
            (makeMove p d oracle idx).2.1 (makeMove p d oracle idx).2.2.1
            mc am st with
        | win p' d' i' m' => trivial
        | cont p' d' i' m' a' s' =>
          rw [hr] at hq
          intro h
          obtain ⟨h1, h2, h3, h4⟩ := hq h
          refine ⟨h1, ?_, ?_, h4⟩
          · rw [h2, hfr.2.2.1]
          · rw [h3, hfr.2.1]
    · exact fun h => ⟨h, rfl, rfl, rfl⟩

/-- If the whole player loop ends with `anyPlayerMoved = false` then nothing
was placed anywhere: every player's `playsThisRound` (indeed every player),
the Dutch piles and the move count are unchanged, and there was no winner. -/
lemma playersLoop_quiet (oracle : Nat → ℚ) (rest : List Player) :
    ∀ (done : List Player) (d : DutchPiles) (idx mc : Nat) (am : Bool) (st : Nat),
    (playersLoop oracle done rest d idx mc am st).anyMoved = false →
    am = false ∧
    (playersLoop oracle done rest d idx mc am st).winnerIdx = none ∧
    (playersLoop oracle done rest d idx mc am st).dutch = d ∧
    (playersLoop oracle done rest d idx mc am st).moveCount = mc ∧
    (∀ j pj qj, j ≥ done.length →
      (playersLoop oracle done rest d idx mc am st).players.get? j = some pj →
      (done ++ rest).get? j = some qj →
      pj.playsThisRound = qj.playsThisRound) := by
  induction rest with
  | nil =>
    intro done d idx mc am st h
    refine ⟨h, rfl, rfl, rfl, ?_⟩
    intro j pj qj hj hp hq
    unfold playersLoop at hp
    rw [List.append_nil] at hq
    rw [hp] at hq
    cases hq
    rfl
  | cons p t ih =>
    intro done d idx mc am st h
    have hsingle : ∀ (p1 : Player), done ++ [p1] ++ t = done ++ p1 :: t := by
      intro p1
      rw [List.append_assoc]
      rfl
    unfold playersLoop at h ⊢
    split at h
    · rename_i hwon
      split
      · obtain ⟨h1, h2, h3, h4, h5⟩ := ih (done ++ [p]) d idx mc am st h
        refine ⟨h1, h2, h3, h4, ?_⟩
        intro j pj qj hj hp hq
        by_cases hj2 : j = done.length
        · subst hj2
          rw [(playersLoop_facts oracle t (done ++ [p]) d idx mc am st).2.1
            done.length (by simp)] at hp
          rw [List.get?_append_right (le_refl _), Nat.sub_self] at hp
          rw [List.get?_append_right (le_refl _), Nat.sub_self] at hq
          cases hp
          cases hq
          rfl
        · refine h5 j pj qj
            (by simp only [List.length_append, List.length_singleton]; omega) hp ?_
          rw [hsingle]
          exact hq
      · rename_i hnw
        exact absurd hwon hnw
    · rename_i hnwon
      split
      · rename_i hwon
        exact absurd hwon hnwon
      · cases hinner : innerLoop oracle 5 0 p d idx mc am st with
        | win p1 d1 idx1 mc1 =>
          rw [hinner] at h
          cases h
        | cont p1 d1 idx1 mc1 am1 st1 =>
          rw [hinner] at h
          have hq0 := innerLoop_quiet oracle 5 0 p d idx mc am st
          rw [hinner] at hq0
          obtain ⟨h1, h2, h3, h4, h5⟩ := ih (done ++ [p1]) d1 idx1 mc1 am1 st1 h
          obtain ⟨ham, hplays, hd, hmc⟩ := hq0 h1
          refine ⟨ham, h2, by rw [h3, hd], by rw [h4, hmc], ?_⟩
          intro j pj qj hj hp hq
          by_cases hj2 : j = done.length
          · subst hj2
            rw [(playersLoop_facts oracle t (done ++ [p1]) d1 idx1 mc1 am1 st1).2.1
              done.length (by simp)] at hp
            rw [List.get?_append_right (le_refl _), Nat.sub_self] at hp
            rw [List.get?_append_right (le_refl _), Nat.sub_self] at hq
            cases hp
            cases hq
            exact hplays
          · have hj3 : done.length < j := by omega
            refine h5 j pj qj
              (by simp only [List.length_append, List.length_singleton]; omega) hp ?_
            rw [List.get?_append_right (by omega)] at hq
            have hd2 : j - done.length = (j - done.length - 1) + 1 := by omega
            rw [hd2] at hq
            rw [show ((p :: t).get? (j - done.length - 1 + 1)) =
              t.get? (j - done.length - 1) from rfl] at hq
            rw [List.get?_append_right
              (by simp only [List.length_append, List.length_singleton]; omega)]
            rw [show j - (done ++ [p1]).length = j - done.length - 1 from
              by simp only [List.length_append, List.length_singleton]; omega]
            exact hq

/-! ## Claim theorems: C4, C3, C5, C10 -/

lemma drawCards_ret (p : Player) : (p.drawCards).2 = true ↔ p.drawPile ≠ [] := by
  unfold Player.drawCards
  split
  · rename_i h
    simp [h.1]
  · split
    · rename_i h1 h2
      simp [h2.2]
    · split
      · rename_i h1 h2 h3
        simp [h3]
      · rename_i h1 h2 h3
        simp [not_not.1 h3]

/-- C4 (amended): `drawCards` returns false exactly when the draw pile is
empty — also when revealed cards remain, contrary to the original claim; the
original "both empty implies false" half does hold. -/
theorem C4_cycleDraw_return (p : Player) :
    ((p.drawCards).2 = false ↔ p.drawPile = []) ∧
    ((p.drawPile = [] ∧ p.drawRevealed = []) → (p.drawCards).2 = false) := by
  have h := drawCards_ret p
  constructor
  · constructor
    · intro hfalse
      by_contra hne
      rw [h.2 hne] at hfalse
      cases hfalse
    · intro hnil
      cases hret : (p.drawCards).2 with
      | false => rfl
      | true => exact absurd hnil (h.1 hret)
  · intro hc
    cases hret : (p.drawCards).2 with
    | false => rfl
    | true => exact absurd hc.1 (h.1 hret)

/-- A hand with an empty draw pile but a non-empty revealed buffer: the
original C4 claims `drawCards` returns true here, but it returns false. -/
def sampleRevealedOnly : Player :=
  { blitzPile := [Card.mk 5 .red], postPiles := [[], [], []], drawPile := [],
    drawRevealed := [Card.mk 5 .blue], playsThisRound := 0, totalPlays := 0,
    wins := 0, strategy := .aggressive }

theorem C4_counterexample :
    ¬(sampleRevealedOnly.drawPile = [] ∧ sampleRevealedOnly.drawRevealed = []) ∧
    (sampleRevealedOnly.drawCards).2 = false := by decide

theorem C4_witness :
    ((sampleRevealedOnly.drawCards).2 = false ↔ sampleRevealedOnly.drawPile = []) ∧
    ((sampleRevealedOnly.drawPile = [] ∧ sampleRevealedOnly.drawRevealed = []) →
      (sampleRevealedOnly.drawCards).2 = false) :=
  C4_cycleDraw_return sampleRevealedOnly

lemma playTurnCore_none_stale (g : Game) (L : LoopOut) (now : Nat)
    (hw : L.winnerIdx = none)
    (hc : L.anyMoved = false ∧ g.players.length ≤ L.stale) :
    (playTurnCore g L now).1.gameActive = false ∧
    (playTurnCore g L now).1.winner = none ∧
    (playTurnCore g L now).2 = true := by
  unfold playTurnCore
  rw [hw]
  dsimp only
  rw [if_pos hc]
  exact ⟨(endRound_winner _ _ _).2, (endRound_winner _ _ _).1, rfl⟩

lemma playTurnCore_none_go (g : Game) (L : LoopOut) (now : Nat)
    (hw : L.winnerIdx = none)
    (hc : ¬(L.anyMoved = false ∧ g.players.length ≤ L.stale)) :
    (playTurnCore g L now).1.gameActive = g.gameActive ∧
    (playTurnCore g L now).1.winner = g.winner ∧
    (playTurnCore g L now).2 = L.anyMoved ∧
    (playTurnCore g L now).1.players = L.players ∧
    (playTurnCore g L now).1.dutchPiles = L.dutch ∧
    (playTurnCore g L now).1.moveCount = L.moveCount := by
  unfold playTurnCore
  rw [hw]
  dsimp only
  rw [if_neg hc]
  exact ⟨rfl, rfl, rfl, rfl, rfl, rfl⟩

/-- C3 (amended): on an active round, `playTurn` ends the round as a
stalemate (inactive, winner = none, returning true) exactly when the player
loop produced no winner, no bot invocation reported a move (`anyPlayerMoved`
stayed false — placements or successful draw-cycles alike), and the stalemate
votes reach the player count. -/
theorem C3_stalemate_condition (g : Game) (oracle : Nat → ℚ) (idx now : Nat)
    (hActive : g.gameActive = true) :
    (((playTurn g oracle idx now).1.gameActive = false ∧
      (playTurn g oracle idx now).1.winner = none) ↔
     ((playersLoop oracle [] g.players g.dutchPiles idx g.moveCount
         false 0).winnerIdx = none ∧
      (playersLoop oracle [] g.players g.dutchPiles idx g.moveCount
         false 0).anyMoved = false ∧
      g.players.length ≤ (playersLoop oracle [] g.players g.dutchPiles idx
         g.moveCount false 0).stale)) ∧
    (((playersLoop oracle [] g.players g.dutchPiles idx g.moveCount
         false 0).winnerIdx = none ∧
      (playersLoop oracle [] g.players g.dutchPiles idx g.moveCount
         false 0).anyMoved = false ∧
      g.players.length ≤ (playersLoop oracle [] g.players g.dutchPiles idx
         g.moveCount false 0).stale) →
      (playTurn g oracle idx now).2 = true) := by
  have hturn : playTurn g oracle idx now =
      playTurnCore g (playersLoop oracle [] g.players g.dutchPiles idx
        g.moveCount false 0) now := by
    unfold playTurn
    rw [if_pos hActive]
  rw [hturn]
  cases hwi : (playersLoop oracle [] g.players g.dutchPiles idx
      g.moveCount false 0).winnerIdx with
  | some w =>
    obtain ⟨_, hwinner, hactive2, _⟩ := playTurnCore_some g _ now w hwi
    constructor
    · constructor
      · intro hlhs
        rw [hwinner] at hlhs
        cases hlhs.2
      · intro hrhs
        cases hrhs.1
    · intro hrhs
      cases hrhs.1
  | none =>
    by_cases hc : (playersLoop oracle [] g.players g.dutchPiles idx
        g.moveCount false 0).anyMoved = false ∧
        g.players.length ≤ (playersLoop oracle [] g.players g.dutchPiles idx
          g.moveCount false 0).stale
    · obtain ⟨hga, hwn, hret⟩ := playTurnCore_none_stale g _ now hwi hc
      exact ⟨⟨fun _ => ⟨rfl, hc.1, hc.2⟩, fun _ => ⟨hga, hwn⟩⟩, fun _ => hret⟩
    · obtain ⟨hga, _, _, _, _, _⟩ := playTurnCore_none_go g _ now hwi hc
      constructor
      · constructor
        · intro hlhs
          rw [hga, hActive] at hlhs
          cases hlhs.1
        · intro hrhs
          exact absurd ⟨hrhs.2.1, hrhs.2.2⟩ hc
      · intro hrhs
        exact absurd ⟨hrhs.2.1, hrhs.2.2⟩ hc

/-- C5 (amended): a `playTurn` call that does not end the round returns the
`anyPlayerMoved` flag — true when some bot invocation reported a move, which
can be a successful draw-cycle rather than a placement; a false return does
guarantee that no placement occurred (no play counter, foundation pile or
move count changed). -/
theorem C5_return_value (g : Game) (oracle : Nat → ℚ) (idx now : Nat)
    (hActive : g.gameActive = true)
    (hnoend : (playTurn g oracle idx now).1.gameActive = true) :
    ((playTurn g oracle idx now).2 =
      (playersLoop oracle [] g.players g.dutchPiles idx g.moveCount
        false 0).anyMoved) ∧
    ((playTurn g oracle idx now).2 = false →
      (playTurn g oracle idx now).1.dutchPiles = g.dutchPiles ∧
      (playTurn g oracle idx now).1.moveCount = g.moveCount ∧
      ∀ j pj qj, (playTurn g oracle idx now).1.players.get? j = some pj →
        g.players.get? j = some qj → pj.playsThisRound = qj.playsThisRound) := by
  have hturn : playTurn g oracle idx now =
      playTurnCore g (playersLoop oracle [] g.players g.dutchPiles idx
        g.moveCount false 0) now := by
    unfold playTurn
    rw [if_pos hActive]
  rw [hturn] at hnoend ⊢
  cases hwi : (playersLoop oracle [] g.players g.dutchPiles idx
      g.moveCount false 0).winnerIdx with
  | some w =>
    obtain ⟨_, _, hactive2, _⟩ := playTurnCore_some g _ now w hwi
    rw [hactive2] at hnoend
    cases hnoend
  | none =>
    by_cases hc : (playersLoop oracle [] g.players g.dutchPiles idx
        g.moveCount false 0).anyMoved = false ∧
        g.players.length ≤ (playersLoop oracle [] g.players g.dutchPiles idx
          g.moveCount false 0).stale
    · obtain ⟨hga, _, _⟩ := playTurnCore_none_stale g _ now hwi hc
      rw [hga] at hnoend
      cases hnoend
    · obtain ⟨_, _, hret, hplayers, hdutch, hmc⟩ := playTurnCore_none_go g _ now hwi hc
      refine ⟨hret, ?_⟩
      intro hfalse
      rw [hret] at hfalse
      obtain ⟨_, _, hd, hmc2, hplays⟩ :=
        playersLoop_quiet oracle g.players [] g.dutchPiles idx g.moveCount
          false 0 hfalse
      refine ⟨by rw [hdutch, hd], by rw [hmc, hmc2], ?_⟩
      intro j pj qj hp hq
      rw [hplayers] at hp
      exact hplays j pj qj (by simp) hp (by rw [List.nil_append]; exact hq)

/-- C10: a bot invocation that finds no candidate placement but can still
draw-cycle returns true, and the inner loop of `playTurn` counts it exactly
like a placement: the any-move flag is set, the global move count is
incremented, and one of the player's 3 per-call move slots is consumed —
although no play was recorded and no card left the hand. -/
theorem C10_draw_counts_as_move (p : Player) (d : DutchPiles) (oracle : Nat → ℚ)
    (idx mc : Nat) (am : Bool) (st : Nat)
    (hpick : pickBest (collectMoves (refreshDraw p).strategy oracle d
      (refreshDraw p).postPiles (refreshDraw p).getAvailableCards idx).1 = none)
    (hdp : (refreshDraw p).drawPile ≠ [])
    (hblitz : p.blitzPile ≠ []) :
    (makeMove p d oracle idx).2.2.2 = true ∧
    (makeMove p d oracle idx).1.playsThisRound = p.playsThisRound ∧
    (makeMove p d oracle idx).2.1 = d ∧
    cardsOf (makeMove p d oracle idx).1 = cardsOf p ∧
    innerLoop oracle 5 0 p d idx mc am st =
      innerLoop oracle 4 1 (makeMove p d oracle idx).1 d
        (makeMove p d oracle idx).2.2.1 (mc + 1) true st := by
  have hmeq := makeMove_eq p d oracle idx
  rw [hpick] at hmeq
  have hret : (makeMove p d oracle idx).2.2.2 = true := by
    rw [hmeq]
    exact (drawCards_ret _).2 hdp
  have hplays : (makeMove p d oracle idx).1.playsThisRound = p.playsThisRound := by
    rw [hmeq]
    show ((refreshDraw p).drawCards).1.playsThisRound = p.playsThisRound
    rw [(drawCards_counters _).1, (refreshDraw_counters p).1]
  have hdutch : (makeMove p d oracle idx).2.1 = d := by
    rw [hmeq]
  have hcards : cardsOf (makeMove p d oracle idx).1 = cardsOf p := by
    rw [hmeq]
    show cardsOf ((refreshDraw p).drawCards).1 = cardsOf p
    rw [drawCards_cardsOf, refreshDraw_cardsOf]
  have hblitz2 : (makeMove p d oracle idx).1.blitzPile = p.blitzPile := by
    rw [hmeq]
    show ((refreshDraw p).drawCards).1.blitzPile = p.blitzPile
    rw [drawCards_blitz, refreshDraw_blitz]
  have hnwon : (makeMove p d oracle idx).1.hasWon = false := by
    cases hw : (makeMove p d oracle idx).1.hasWon with
    | false => rfl
    | true =>
      exfalso
      apply hblitz
      rw [← hblitz2]
      exact (hasWon_iff _).1 hw
  refine ⟨hret, hplays, hdutch, hcards, ?_⟩
  show (if 0 < 3 then _ else _) = _
  rw [if_pos (by omega), if_pos hret, if_neg (by rw [hnwon]; intro hcc; cases hcc)]
  rw [hdutch]

/-! ## C9: the +200 blitz-ace-to-foundation move dominates -/

/-- Any candidate that is not a blitz-source Dutch-pile move scores below
331, for any random component in [0, 20). -/
lemma getMovePriority_le (strat : Strategy) (card : Card) (source : Source)
    (target : MTarget) (r : ℚ) (hr0 : 0 ≤ r) (hr20 : r < 20)
    (hnot : ¬(source.isBlitz = true ∧ target.isDutch = true)) :
    getMovePriority strat card source target r < 331 := by
  have hv : (0 : ℚ) ≤ (card.value : ℚ) := Nat.cast_nonneg _
  by_cases hb : source.isBlitz = true
  · have hd : ¬(target.isDutch = true) := fun hd => hnot ⟨hb, hd⟩
    cases strat <;> simp [getMovePriority, hb, hd] <;> linarith
  · by_cases hd : target.isDutch = true
    · by_cases h1 : card.value = 1
      · have hv1 : (card.value : ℚ) = 1 := by exact_mod_cast h1
        cases strat <;> simp [getMovePriority, hb, hd, h1] <;> linarith
      · cases strat <;> simp [getMovePriority, hb, hd, h1] <;> linarith
    · cases strat <;> simp [getMovePriority, hb, hd] <;> linarith

/-- The red-ace-from-blitz-to-foundation candidate scores at least 400. -/
lemma getMovePriority_ace (strat : Strategy) (r : ℚ) (hr0 : 0 ≤ r) :
    400 ≤ getMovePriority strat (Card.mk 1 .red) Source.blitz MTarget.dutch r := by
  cases strat <;> simp [getMovePriority, Source.isBlitz, MTarget.isDutch] <;>
    linarith

lemma scoreMove_form (strat : Strategy) (oracle : Nat → ℚ) (k : Nat)
    (c : Card) (s : Source) (t : MTarget)
    (hor : ∀ n, 0 ≤ oracle n ∧ oracle n < 20) :
    ∃ r, 0 ≤ r ∧ r < 20 ∧
      (scoreMove strat oracle k c s t).1 = getMovePriority strat c s t r := by
  cases strat with
  | aggressive => exact ⟨0, le_refl 0, by norm_num, rfl⟩
  | balanced => exact ⟨oracle k, (hor k).1, (hor k).2, rfl⟩

lemma collectPostMoves_priority {strat : Strategy} {oracle : Nat → ℚ}
    {card : Card} {source : Source} {piles : List (Nat × List Card)}
    {idx : Nat} {m : Move} (hor : ∀ n, 0 ≤ oracle n ∧ oracle n < 20)
    (h : m ∈ (collectPostMoves strat oracle card source piles idx).1) :
    ∃ r, 0 ≤ r ∧ r < 20 ∧
      m.priority = getMovePriority strat m.card m.source m.target r := by
  induction piles generalizing idx with
  | nil => cases h
  | cons ip rest ih =>
    unfold collectPostMoves at h
    split at h
    · rcases List.mem_cons.1 h with h1 | h1
      · subst h1
        obtain ⟨r, hr0, hr20, hform⟩ :=
          scoreMove_form strat oracle idx card source (.post ip.1) hor
        exact ⟨r, hr0, hr20, hform⟩
      · exact ih h1
    · exact ih h

lemma dutchCandidate_priority {strat : Strategy} {oracle : Nat → ℚ}
    {d : DutchPiles} {cs : Card × Source} {idx : Nat} {m : Move}
    (hor : ∀ n, 0 ≤ oracle n ∧ oracle n < 20)
    (h : m ∈ (dutchCandidate strat oracle d cs idx).1) :
    ∃ r, 0 ≤ r ∧ r < 20 ∧
      m.priority = getMovePriority strat m.card m.source m.target r := by
  unfold dutchCandidate at h
  split at h
  · rcases List.mem_singleton.1 h with rfl
    obtain ⟨r, hr0, hr20, hform⟩ := scoreMove_form strat oracle idx cs.1 cs.2 .dutch hor
    exact ⟨r, hr0, hr20, hform⟩
  · cases h

lemma collectMoves_priority {strat : Strategy} {oracle : Nat → ℚ}
    {d : DutchPiles} {pps : List (List Card)} {avail : List (Card × Source)}
    {idx : Nat} {m : Move} (hor : ∀ n, 0 ≤ oracle n ∧ oracle n < 20)
    (h : m ∈ (collectMoves strat oracle d pps avail idx).1) :
    ∃ r, 0 ≤ r ∧ r < 20 ∧
      m.priority = getMovePriority strat m.card m.source m.target r := by
  induction avail generalizing idx with
  | nil => cases h
  | cons cs rest ih =>
    unfold collectMoves at h
    rcases List.mem_append.1 h with h1 | h1
    · rcases List.mem_append.1 h1 with h2 | h2
      · exact dutchCandidate_priority hor h2
      · exact collectPostMoves_priority hor h2
    · exact ih h1

lemma pickBest_head_dominant {m0 : Move} {ms : List Move}
    (h : ∀ m ∈ ms, m.priority < m0.priority) :
    pickBest (m0 :: ms) = some m0 := by
  have hfold : ∀ (l : List Move) (b : Move), (∀ x ∈ l, x.priority < b.priority) →
      l.foldl (fun best x => if best.priority < x.priority then x else best) b = b := by
    intro l
    induction l with
    | nil => intro b _; rfl
    | cons y u ih =>
      intro b hx
      rw [List.foldl_cons,
        if_neg (not_lt.2 (le_of_lt (hx y (List.mem_cons_self _ _))))]
      exact ih b (fun x hxu => hx x (List.mem_cons_of_mem _ hxu))
  show (match m0 :: ms with
    | [] => none
    | m :: ms =>
      some (ms.foldl (fun best x => if best.priority < x.priority then x else best) m)) =
    some m0
  dsimp only
  rw [hfold ms m0 h]

lemma nonblitz_sources {pr : Player} {c : Card} {s : Source}
    (h : (c, s) ∈ (pr.postPiles.enum.filterMap fun iPile =>
        iPile.2.head?.map fun cc => (cc, Source.post iPile.1)) ++
      (pr.drawRevealed.enum.map fun ic => (ic.2, Source.draw ic.1))) :
    s.isBlitz = false := by
  rcases List.mem_append.1 h with h1 | h1
  · simp only [List.mem_filterMap, Option.map_eq_some'] at h1
    obtain ⟨ip, _, cc, _, hc⟩ := h1
    simp only [Prod.mk.injEq] at hc
    rw [← hc.2]
    rfl
  · simp only [List.mem_map] at h1
    obtain ⟨ic, _, hc⟩ := h1
    simp only [Prod.mk.injEq] at hc
    rw [← hc.2]
    rfl

lemma collectMoves_cons (strat : Strategy) (oracle : Nat → ℚ) (d : DutchPiles)
    (posts : List (List Card)) (cs : Card × Source) (rest : List (Card × Source))
    (idx : Nat) :
    collectMoves strat oracle d posts (cs :: rest) idx =
    ((dutchCandidate strat oracle d cs idx).1 ++
       (collectPostMoves strat oracle cs.1 cs.2 posts.enum
         (dutchCandidate strat oracle d cs idx).2).1 ++
       (collectMoves strat oracle d posts rest
         (collectPostMoves strat oracle cs.1 cs.2 posts.enum
           (dutchCandidate strat oracle d cs idx).2).2).1,
     (collectMoves strat oracle d posts rest
       (collectPostMoves strat oracle cs.1 cs.2 posts.enum
         (dutchCandidate strat oracle d cs idx).2).2).2) := rfl

/-- C9: for a hand whose blitz pile is exactly the red 1 and empty shared
foundations, the bot's move collection is headed by the
blitz-1-to-red-foundation candidate, whose priority (with its +200 bonus)
strictly exceeds every other candidate's under either strategy and every
random component in [0,20); `makeMove` therefore plays it, emptying the blitz
pile (`hasWon`), and `playTurn` on a game whose first player holds this hand
ends the round immediately with that player as winner. -/
theorem C9_ace_dominates (p : Player) (oracle : Nat → ℚ) (idx : Nat)
    (g : Game) (others : List Player) (now : Nat)
    (hblitz : p.blitzPile = [Card.mk 1 .red])
    (hor : ∀ n, 0 ≤ oracle n ∧ oracle n < 20)
    (hg : g.players = p :: others)
    (hdu : g.dutchPiles = emptyDutch)
    (hactive : g.gameActive = true) :
    (∃ m0, (collectMoves (refreshDraw p).strategy oracle emptyDutch
        (refreshDraw p).postPiles (refreshDraw p).getAvailableCards idx).1 =
        m0 :: (collectMoves (refreshDraw p).strategy oracle emptyDutch
          (refreshDraw p).postPiles (refreshDraw p).getAvailableCards idx).1.tail ∧
      m0.card = Card.mk 1 .red ∧ m0.source = Source.blitz ∧
      m0.target = MTarget.dutch ∧
      (∀ m' ∈ (collectMoves (refreshDraw p).strategy oracle emptyDutch
          (refreshDraw p).postPiles (refreshDraw p).getAvailableCards idx).1.tail,
        m'.priority < m0.priority) ∧
      pickBest (collectMoves (refreshDraw p).strategy oracle emptyDutch
        (refreshDraw p).postPiles (refreshDraw p).getAvailableCards idx).1 =
        some m0) ∧
    (makeMove p emptyDutch oracle idx).2.2.2 = true ∧
    (makeMove p emptyDutch oracle idx).1.blitzPile = [] ∧
    (makeMove p emptyDutch oracle idx).1.hasWon = true ∧
    (makeMove p emptyDutch oracle idx).2.1.red = [Card.mk 1 .red] ∧
    (playTurn g oracle idx now).1.winner = some 0 ∧
    (playTurn g oracle idx now).1.gameActive = false ∧
    (playTurn g oracle idx now).2 = true := by
  have hbr : (refreshDraw p).blitzPile = [Card.mk 1 .red] := by
    rw [refreshDraw_blitz, hblitz]
  have havail : (refreshDraw p).getAvailableCards =
      (Card.mk 1 .red, Source.blitz) ::
      (((refreshDraw p).postPiles.enum.filterMap fun iPile =>
          iPile.2.head?.map fun cc => (cc, Source.post iPile.1)) ++
        ((refreshDraw p).drawRevealed.enum.map fun ic =>
          (ic.2, Source.draw ic.1))) := by
    unfold Player.getAvailableCards Player.getTopBlitzCard
    rw [hbr]
    rfl
  have hdc : dutchCandidate (refreshDraw p).strategy oracle emptyDutch
      (Card.mk 1 .red, Source.blitz) idx =
      ([Move.mk (Card.mk 1 .red) Source.blitz MTarget.dutch
          (scoreMove (refreshDraw p).strategy oracle idx (Card.mk 1 .red)
            Source.blitz MTarget.dutch).1],
       (scoreMove (refreshDraw p).strategy oracle idx (Card.mk 1 .red)
         Source.blitz MTarget.dutch).2) := by
    unfold dutchCandidate
    rw [if_pos (by rfl)]
  have hmoves : (collectMoves (refreshDraw p).strategy oracle emptyDutch
      (refreshDraw p).postPiles (refreshDraw p).getAvailableCards idx).1 =
      Move.mk (Card.mk 1 .red) Source.blitz MTarget.dutch
        (scoreMove (refreshDraw p).strategy oracle idx (Card.mk 1 .red)
          Source.blitz MTarget.dutch).1 ::
      ((collectPostMoves (refreshDraw p).strategy oracle (Card.mk 1 .red)
          Source.blitz (refreshDraw p).postPiles.enum
          (scoreMove (refreshDraw p).strategy oracle idx (Card.mk 1 .red)
            Source.blitz MTarget.dutch).2).1 ++
        (collectMoves (refreshDraw p).strategy oracle emptyDutch
          (refreshDraw p).postPiles
          (((refreshDraw p).postPiles.enum.filterMap fun iPile =>
              iPile.2.head?.map fun cc => (cc, Source.post iPile.1)) ++
            ((refreshDraw p).drawRevealed.enum.map fun ic =>
              (ic.2, Source.draw ic.1)))
          (collectPostMoves (refreshDraw p).strategy oracle (Card.mk 1 .red)
            Source.blitz (refreshDraw p).postPiles.enum
            (scoreMove (refreshDraw p).strategy oracle idx (Card.mk 1 .red)
              Source.blitz MTarget.dutch).2).2).1) := by
    rw [havail, collectMoves_cons, hdc]
    simp only [List.cons_append, List.nil_append]
  obtain ⟨r0, hr00, hr020, hform0⟩ := scoreMove_form (refreshDraw p).strategy
    oracle idx (Card.mk 1 .red) Source.blitz MTarget.dutch hor
  have hm0lower : 400 ≤ (scoreMove (refreshDraw p).strategy oracle idx
      (Card.mk 1 .red) Source.blitz MTarget.dutch).1 := by
    rw [hform0]
    exact getMovePriority_ace _ r0 hr00
  have hdom : ∀ m' ∈ (collectPostMoves (refreshDraw p).strategy oracle
      (Card.mk 1 .red) Source.blitz (refreshDraw p).postPiles.enum
      (scoreMove (refreshDraw p).strategy oracle idx (Card.mk 1 .red)
        Source.blitz MTarget.dutch).2).1 ++
      (collectMoves (refreshDraw p).strategy oracle emptyDutch
        (refreshDraw p).postPiles
        (((refreshDraw p).postPiles.enum.filterMap fun iPile =>
            iPile.2.head?.map fun cc => (cc, Source.post iPile.1)) ++
          ((refreshDraw p).drawRevealed.enum.map fun ic =>
            (ic.2, Source.draw ic.1)))
        (collectPostMoves (refreshDraw p).strategy oracle (Card.mk 1 .red)
          Source.blitz (refreshDraw p).postPiles.enum
          (scoreMove (refreshDraw p).strategy oracle idx (Card.mk 1 .red)
            Source.blitz MTarget.dutch).2).2).1,
      m'.priority < (scoreMove (refreshDraw p).strategy oracle idx
        (Card.mk 1 .red) Source.blitz MTarget.dutch).1 := by
    intro m' hm'
    have hlt : m'.priority < 331 := by
      rcases List.mem_append.1 hm' with h1 | h1
      · obtain ⟨r, hrr0, hrr20, hformr⟩ := collectPostMoves_priority hor h1
        obtain ⟨_, _, i, htgt, _, _⟩ := collectPostMoves_mem h1
        rw [hformr]
        refine getMovePriority_le _ _ _ _ r hrr0 hrr20 ?_
        intro hcc
        rw [htgt] at hcc
        cases hcc.2
      · obtain ⟨r, hrr0, hrr20, hformr⟩ := collectMoves_priority hor h1
        have hmem := collectMoves_mem h1
        have hnb : m'.source.isBlitz = false := nonblitz_sources hmem.1
        rw [hformr]
        refine getMovePriority_le _ _ _ _ r hrr0 hrr20 ?_
        intro hcc
        rw [hnb] at hcc
        cases hcc.1
    linarith
  have hpick : pickBest (collectMoves (refreshDraw p).strategy oracle emptyDutch
      (refreshDraw p).postPiles (refreshDraw p).getAvailableCards idx).1 =
      some (Move.mk (Card.mk 1 .red) Source.blitz MTarget.dutch
        (scoreMove (refreshDraw p).strategy oracle idx (Card.mk 1 .red)
          Source.blitz MTarget.dutch).1) := by
    rw [hmoves]
    exact pickBest_head_dominant hdom
  have hplay : (refreshDraw p).playCard (Card.mk 1 .red) Source.blitz
      emptyDutch none =
      (((refreshDraw p).removeCardFromSource Source.blitz).bumpPlays,
       emptyDutch.set Color.red [Card.mk 1 .red], true) := by
    simp only [Player.playCard]
    rw [if_pos (by rfl)]
    rfl
  have hmm2 : makeMove p emptyDutch oracle idx =
      ((((refreshDraw p).removeCardFromSource Source.blitz).bumpPlays),
       emptyDutch.set Color.red [Card.mk 1 .red],
       (collectMoves (refreshDraw p).strategy oracle emptyDutch
         (refreshDraw p).postPiles (refreshDraw p).getAvailableCards idx).2,
       true) := by
    rw [makeMove_eq, hpick]
    dsimp only
    rw [hplay]
  have hblitz2 : (makeMove p emptyDutch oracle idx).1.blitzPile = [] := by
    rw [hmm2]
    show ((refreshDraw p).blitzPile).tail = []
    rw [hbr] <;> rfl
  have hwon2 : (makeMove p emptyDutch oracle idx).1.hasWon = true := by
    rw [hasWon_iff]
    exact hblitz2
  refine ⟨⟨Move.mk (Card.mk 1 .red) Source.blitz MTarget.dutch
      (scoreMove (refreshDraw p).strategy oracle idx (Card.mk 1 .red)
        Source.blitz MTarget.dutch).1, ?_, rfl, rfl, rfl, ?_, hpick⟩,
    ?_, hblitz2, hwon2, ?_, ?_, ?_, ?_⟩
  · rw [hmoves] <;> rfl
  · rw [hmoves]
    exact hdom
  · rw [hmm2]
  · rw [hmm2] <;> rfl
  all_goals {
    have hwonp : ¬(p.hasWon = true) := by
      intro hwn
      rw [hasWon_iff, hblitz] at hwn
      cases hwn
    have hinner5 : innerLoop oracle 5 0 p emptyDutch idx g.moveCount false 0 =
        InnerOut.win (makeMove p emptyDutch oracle idx).1
          (makeMove p emptyDutch oracle idx).2.1
          (makeMove p emptyDutch oracle idx).2.2.1 (g.moveCount + 1) := by
      show (if 0 < 3 then _ else _) = _
      rw [if_pos (by omega), if_pos (by rw [hmm2]), if_pos hwon2]
    have hloop : playersLoop oracle [] g.players g.dutchPiles idx
        g.moveCount false 0 =
        ⟨[] ++ (makeMove p emptyDutch oracle idx).1 :: others,
         (makeMove p emptyDutch oracle idx).2.1,
         (makeMove p emptyDutch oracle idx).2.2.1,
         g.moveCount + 1, true, 0, some 0⟩ := by
      rw [hg, hdu]
      unfold playersLoop
      rw [if_neg hwonp, hinner5] <;> rfl
    have hturn : playTurn g oracle idx now =
        playTurnCore g (playersLoop oracle [] g.players g.dutchPiles idx
          g.moveCount false 0) now := by
      unfold playTurn
      rw [if_pos hactive]
    have hwi : (playersLoop oracle [] g.players g.dutchPiles idx
        g.moveCount false 0).winnerIdx = some 0 := by
      rw [hloop]
    obtain ⟨_, hwinner, hactive2, hret⟩ := playTurnCore_some g _ now 0 hwi
    rw [hturn]
    first
      | exact hwinner
      | exact hactive2
      | exact hret
  }

/-! ## Concrete sample games for the claim witnesses -/

/-- A balanced bot holding only the red 1 in its blitz pile. -/
def aceOnlyPlayer : Player :=
  { blitzPile := [Card.mk 1 .red], postPiles := [[], [], []], drawPile := [],
    drawRevealed := [], playsThisRound := 0, totalPlays := 0, wins := 0,
    strategy := .balanced }

def aceOnlyGame : Game :=
  { players := [aceOnlyPlayer]
    dutchPiles := emptyDutch
    gameActive := true
    winner := none
    roundStartTime := 0
    roundDuration := 0
    roundNumber := 1
    moveCount := 0
    gameStats :=
      { totalGames := 0, averageRoundDuration := 0,
        playerStats := [{ wins := 0, totalPlays := 0, averagePlaysPerGame := 0 }] } }

theorem C9_witness :
    (playTurn aceOnlyGame (fun _ => (0 : ℚ)) 0 0).1.winner = some 0 ∧
    (playTurn aceOnlyGame (fun _ => (0 : ℚ)) 0 0).1.gameActive = false ∧
    (playTurn aceOnlyGame (fun _ => (0 : ℚ)) 0 0).2 = true := by
  have h := C9_ace_dominates aceOnlyPlayer (fun _ => (0 : ℚ)) 0 aceOnlyGame [] 0
    rfl (fun n => ⟨le_refl 0, by norm_num⟩) rfl rfl rfl
  exact ⟨h.2.2.2.2.2.1, h.2.2.2.2.2.2.1, h.2.2.2.2.2.2.2⟩

/-- An aggressive bot whose only legal placement is the blitz-top red 1 onto
the red foundation (every post top is a 5, so nothing else is playable);
playing it empties the blitz pile. -/
def sampleWinPlayer : Player :=
  { blitzPile := [Card.mk 1 .red],
    postPiles := [[Card.mk 5 .blue], [Card.mk 5 .green], [Card.mk 5 .yellow]],
    drawPile := [], drawRevealed := [], playsThisRound := 0, totalPlays := 0,
    wins := 0, strategy := .aggressive }

def sampleWinGame : Game :=
  { players := [sampleWinPlayer]
    dutchPiles := emptyDutch
    gameActive := true
    winner := none
    roundStartTime := 0
    roundDuration := 0
    roundNumber := 1
    moveCount := 0
    gameStats :=
      { totalGames := 0, averageRoundDuration := 0,
        playerStats := [{ wins := 0, totalPlays := 0, averagePlaysPerGame := 0 }] } }

/-- `sampleWinPlayer` after its winning turn: blitz emptied, one play
recorded, one win credited by `endRound`. -/
def sampleWinFinal : Player :=
  { blitzPile := [],
    postPiles := [[Card.mk 5 .blue], [Card.mk 5 .green], [Card.mk 5 .yellow]],
    drawPile := [], drawRevealed := [], playsThisRound := 1, totalPlays := 1,
    wins := 1, strategy := .aggressive }

theorem C2_witness :
    (playTurn sampleWinGame (fun _ => (0 : ℚ)) 0 0).1.winner = some 0 ∧
    (playTurn sampleWinGame (fun _ => (0 : ℚ)) 0 0).1.gameActive = false ∧
    (playTurn sampleWinGame (fun _ => (0 : ℚ)) 0 0).2 = true := by
  have h := C2_win_immediate sampleWinGame (fun _ => (0 : ℚ)) 0 0 0
    sampleWinPlayer sampleWinFinal rfl rfl (by decide) (by decide) (by decide)
  exact ⟨h.1, h.2.1, h.2.2.1⟩

/-- A single aggressive bot that can never place a card (every destination is
blocked) but whose first bot invocation still succeeds by cycling the draw
pile: `anyPlayerMoved` is set with zero placements, while the later failed
invocation casts a stalemate vote. -/
def sampleC3Player : Player :=
  { blitzPile := [Card.mk 5 .red],
    postPiles := [[Card.mk 2 .blue], [Card.mk 2 .green], [Card.mk 2 .yellow]],
    drawPile := [Card.mk 5 .green], drawRevealed := [Card.mk 5 .blue],
    playsThisRound := 0, totalPlays := 0, wins := 0, strategy := .aggressive }

def sampleC3Game : Game :=
  { players := [sampleC3Player]
    dutchPiles := emptyDutch
    gameActive := true
    winner := none
    roundStartTime := 0
    roundDuration := 0
    roundNumber := 1
    moveCount := 0
    gameStats :=
      { totalGames := 0, averageRoundDuration := 0,
        playerStats := [{ wins := 0, totalPlays := 0, averagePlaysPerGame := 0 }] } }

/-- Counterexample to the original C3: in this `playTurn` call zero
placements occur (the play counters stay 0 and the foundations stay empty)
and the stalemate votes reach the player count, yet the round does not end
in a stalemate — the call leaves the round active and returns true, because
the draw-cycle success already set `anyPlayerMoved`. -/
theorem C3_counterexample :
    sampleC3Game.players.length ≤
      (playersLoop (fun _ => (0 : ℚ)) [] sampleC3Game.players
        sampleC3Game.dutchPiles 0 sampleC3Game.moveCount false 0).stale ∧
    (playersLoop (fun _ => (0 : ℚ)) [] sampleC3Game.players
      sampleC3Game.dutchPiles 0 sampleC3Game.moveCount false 0).winnerIdx = none ∧
    ((playTurn sampleC3Game (fun _ => (0 : ℚ)) 0 0).1.players.map
      Player.playsThisRound) = [0] ∧
    (playTurn sampleC3Game (fun _ => (0 : ℚ)) 0 0).1.dutchPiles =
      sampleC3Game.dutchPiles ∧
    (playTurn sampleC3Game (fun _ => (0 : ℚ)) 0 0).1.gameActive = true ∧
    (playTurn sampleC3Game (fun _ => (0 : ℚ)) 0 0).1.winner = none ∧
    (playTurn sampleC3Game (fun _ => (0 : ℚ)) 0 0).2 = true := by decide

theorem C3_witness :
    ¬((playTurn sampleC3Game (fun _ => (0 : ℚ)) 0 0).1.gameActive = false ∧
      (playTurn sampleC3Game (fun _ => (0 : ℚ)) 0 0).1.winner = none) := by
  intro hend
  have h2 := ((C3_stalemate_condition sampleC3Game (fun _ => (0 : ℚ)) 0 0
    rfl).1).mp hend
  have h3 : (playersLoop (fun _ => (0 : ℚ)) [] sampleC3Game.players
      sampleC3Game.dutchPiles 0 sampleC3Game.moveCount false 0).anyMoved =
      true := by decide
  rw [h3] at h2
  cases h2.2.1

/-- Counterexample to the original C5: this non-ending `playTurn` call
returns true although no placement occurred (all play counters remain 0 and
the foundations stay empty) — a successful draw-cycle alone makes the call
report a move. -/
theorem C5_counterexample :
    (playTurn sampleC3Game (fun _ => (0 : ℚ)) 0 1000).1.gameActive = true ∧
    ((playTurn sampleC3Game (fun _ => (0 : ℚ)) 0 1000).1.players.map
      Player.playsThisRound) = [0] ∧
    (playTurn sampleC3Game (fun _ => (0 : ℚ)) 0 1000).1.dutchPiles =
      sampleC3Game.dutchPiles ∧
    (playTurn sampleC3Game (fun _ => (0 : ℚ)) 0 1000).2 = true := by decide

theorem C5_witness :
    (playTurn sampleC3Game (fun _ => (0 : ℚ)) 0 0).2 =
      (playersLoop (fun _ => (0 : ℚ)) [] sampleC3Game.players
        sampleC3Game.dutchPiles 0 sampleC3Game.moveCount false 0).anyMoved :=
  (C5_return_value sampleC3Game (fun _ => (0 : ℚ)) 0 0 rfl (by decide)).1

/-- An aggressive bot with no legal placement anywhere, but with enough draw
cards that a cycle is always available: its bot invocation succeeds purely by
drawing. -/
def sampleDrawOnly : Player :=
  { blitzPile := [Card.mk 5 .red],
    postPiles := [[Card.mk 2 .blue], [Card.mk 2 .green], [Card.mk 2 .yellow]],
    drawPile := [Card.mk 5 .green, Card.mk 6 .green, Card.mk 7 .green,
      Card.mk 8 .green],
    drawRevealed := [], playsThisRound := 0, totalPlays := 0, wins := 0,
    strategy := .aggressive }

theorem C10_witness :
    (makeMove sampleDrawOnly emptyDutch (fun _ => (0 : ℚ)) 0).2.2.2 = true ∧
    (makeMove sampleDrawOnly emptyDutch (fun _ => (0 : ℚ)) 0).1.playsThisRound =
      sampleDrawOnly.playsThisRound ∧
    (makeMove sampleDrawOnly emptyDutch (fun _ => (0 : ℚ)) 0).2.1 = emptyDutch ∧
    cardsOf (makeMove sampleDrawOnly emptyDutch (fun _ => (0 : ℚ)) 0).1 =
      cardsOf sampleDrawOnly ∧
    innerLoop (fun _ => (0 : ℚ)) 5 0 sampleDrawOnly emptyDutch 0 0 false 0 =
      innerLoop (fun _ => (0 : ℚ)) 4 1
        (makeMove sampleDrawOnly emptyDutch (fun _ => (0 : ℚ)) 0).1 emptyDutch
        (makeMove sampleDrawOnly emptyDutch (fun _ => (0 : ℚ)) 0).2.2.1
        (0 + 1) true 0 :=
  C10_draw_counts_as_move sampleDrawOnly emptyDutch (fun _ => (0 : ℚ)) 0 0
    false 0 rfl (by decide) (by decide)

/-! ## C8: the running-average statistics update -/

/-- The spec's formula `round((prevAvg × (n−1) + newDuration) / n)`, written
directly from the specification text for comparison with `updateStats`. -/
def spec_runningAverage (prevAvg : ℤ) (n : Nat) (newDuration : Nat) : ℤ :=
  jsRound (((prevAvg : ℚ) * ((n : ℚ) - 1) + (newDuration : ℚ)) / (n : ℚ))

/-- An ended game whose first recorded round lasted 10 seconds, with no
statistics accumulated yet. -/
def exampleGame10 : Game :=
  { players := []
    dutchPiles := emptyDutch
    gameActive := false
    winner := none
    roundStartTime := 0
    roundDuration := 10
    roundNumber := 1
    moveCount := 0
    gameStats := { totalGames := 0, averageRoundDuration := 0, playerStats := [] } }

/-- C8: `updateStats` increments `totalGames` and recomputes the averages by
the spec's rounding formulas: the running average round duration becomes
`round((prevAvg × (n−1) + newDuration) / n)` with `n` the new total, and each
player's average plays per game becomes `round(totalPlays / n)`; on the
worked example, durations 10s then 20s give averages 10 and then 15. -/
theorem C8_stats_running_average (g : Game) :
    (updateStats g).gameStats.totalGames = g.gameStats.totalGames + 1 ∧
    (updateStats g).gameStats.averageRoundDuration =
      spec_runningAverage g.gameStats.averageRoundDuration
        (g.gameStats.totalGames + 1) g.roundDuration ∧
    (updateStats g).gameStats.playerStats = g.players.map (fun p =>
      { wins := p.wins, totalPlays := p.totalPlays,
        averagePlaysPerGame :=
          jsRound ((p.totalPlays : ℚ) /
            ((g.gameStats.totalGames + 1 : Nat) : ℚ)) }) ∧
    (updateStats exampleGame10).gameStats.totalGames = 1 ∧
    (updateStats exampleGame10).gameStats.averageRoundDuration = 10 ∧
    (updateStats { updateStats exampleGame10 with
        roundDuration := 20 }).gameStats.averageRoundDuration = 15 := by
  refine ⟨rfl, rfl, rfl, rfl, ?_, ?_⟩
  · show jsRound (((0 : ℚ) * ((1 : ℚ) - 1) + (10 : ℚ)) / (1 : ℚ)) = 10
    rw [jsRound]
    norm_num [Int.floor_eq_iff]
  · show jsRound ((((updateStats exampleGame10).gameStats.averageRoundDuration : ℚ) *
        ((2 : ℚ) - 1) + (20 : ℚ)) / (2 : ℚ)) = 15
    have h10 : (updateStats exampleGame10).gameStats.averageRoundDuration = 10 := by
      show jsRound (((0 : ℚ) * ((1 : ℚ) - 1) + (10 : ℚ)) / (1 : ℚ)) = 10
      rw [jsRound]
      norm_num [Int.floor_eq_iff]
    rw [h10, jsRound]
    norm_num [Int.floor_eq_iff]

end DutchBlitz
